import Mathlib

/-!
Verification of the SNP-analyzer parser core (Q-Prism SNP visualizer).

This file gives a shallow embedding, in Lean 4, of the parsing core of the
`snp-analyzer` repository (directory `app/parsers` plus `app/models.py`) and
proves, or refutes, the frozen specification claims about it.

Conventions of the embedding:
* Python floats are modelled as rationals (`ℚ`); all arithmetic performed by
  the embedded code is addition/subtraction, which is exact.
* Python code that can raise is modelled with `Except String`; the message
  text is abbreviated but the branch structure follows the source.
* Python dicts are modelled as association lists in insertion order with
  overwrite-on-insert; `dict.get` is `List.lookup` (keys are unique by
  construction, so first-match lookup agrees with Python).
* Zip-archive entry names (for `xlsx_fixer.py`) are modelled as `List Char`;
  `str.replace("\\", "/")` with a one-character pattern is exactly a
  character map.
-/

deriving instance DecidableEq for Except

namespace SnpAnalyzer

/-- Python's negative-index wraparound: a negative index counts from the
end. -/
def pyNormIdx (len : Nat) (i : Int) : Int :=
  if i < 0 then (len : Int) + i else i

/-- Python list indexing `l[i]` with negative-index wraparound; raises
`IndexError` (modelled as `.error`) when out of range. -/
def pyIndex {α : Type} (l : List α) (i : Int) : Except String α :=
  if h : 0 ≤ pyNormIdx l.length i ∧ (pyNormIdx l.length i).toNat < l.length then
    .ok (l.get ⟨(pyNormIdx l.length i).toNat, h.2⟩)
  else .error "IndexError: list index out of range"

/-- Digit-string to number, the core of Python `int(...)` on the strings the
parsers feed it (no sign, no surrounding whitespace); `none` models the
`ValueError` on empty or non-digit input. -/
def digitsToNatAux : List Char → Nat → Option Nat
  | [], acc => some acc
  | c :: cs, acc =>
    if c.isDigit then digitsToNatAux cs (acc * 10 + (c.toNat - 48)) else none

def digitsToNat? (l : List Char) : Option Nat :=
  if l = [] then none else digitsToNatAux l 0

/-- Python `int(...)` on a string: an optional minus sign, then digits. -/
def pyIntParse (s : String) : Option Int :=
  match s.data with
  | '-' :: rest => (digitsToNat? rest).map (fun n => -(n : Int))
  | l => (digitsToNat? l).map (fun n => (n : Int))

/-- Python `str.strip()` (ASCII whitespace). -/
def pyStripChars (l : List Char) : List Char :=
  ((l.dropWhile Char.isWhitespace).reverse.dropWhile Char.isWhitespace).reverse

def pyStripStr (s : String) : String := String.mk (pyStripChars s.data)

/-- Python `str.lower()` / `str.upper()` on ASCII strings. -/
def pyLower (s : String) : String := String.mk (s.data.map Char.toLower)

def pyUpper (s : String) : String := String.mk (s.data.map Char.toUpper)

/-- Python dict insert: overwrite the existing binding in place, else append. -/
def dictInsert {K V : Type} [DecidableEq K] (d : List (K × V)) (k : K) (v : V) :
    List (K × V) :=
  if d.any (fun p => p.1 = k) then
    d.map (fun p => if p.1 = k then (k, v) else p)
  else d ++ [(k, v)]

/-! ### Data model (`app/models.py`)

These mirror the pydantic models.  `UnifiedData` has exactly the fields of
`models.py` lines 30-39: `instrument, allele2_dye, wells, cycles, data,
has_rox, sample_names, protocol_steps, data_windows`.  In particular it has
NO `well_groups` field; pydantic's default config ignores unknown keyword
arguments, so a caller passing `well_groups=...` (as `parse_eds` does) has
that argument silently dropped. -/

/-- `models.WellCycleData`: one per-well, per-cycle reading. -/
structure WellCycleData where
  well : String
  cycle : Int
  fam : ℚ
  allele2 : ℚ
  rox : Option ℚ
deriving DecidableEq, Repr

/-- `models.DataWindow`: a named inclusive cycle range. -/
structure DataWindow where
  name : String
  start_cycle : Int
  end_cycle : Int
deriving DecidableEq, Repr

/-- `models.ProtocolStep` (fields of `models.py` lines 83-88 only; the
`phase=`/`goto_label=` keyword arguments passed by the parsers are not fields
of the model and are dropped by pydantic). -/
structure ProtocolStep where
  step : Int
  temperature : ℚ
  duration_sec : Int
  cycles : Int
  label : String
deriving DecidableEq, Repr

/-- `models.UnifiedData`: the canonical parser output. -/
structure UnifiedData where
  instrument : String
  allele2_dye : String
  wells : List String
  cycles : List Int
  data : List WellCycleData
  has_rox : Bool
  sample_names : Option (List (String × String))
  protocol_steps : Option (List ProtocolStep)
  data_windows : Option (List DataWindow)
deriving DecidableEq, Repr

/-! ### `app/parsers/xlsx_fixer.py` -/

/-- A zip entry name, as a character list. -/
abbrev ZipEntryName := List Char

/-- `info.filename.replace("\\", "/")` (one-character pattern, so a map). -/
def deslash (n : ZipEntryName) : ZipEntryName :=
  n.map (fun c => if c = '\\' then '/' else c)

/-- Python `str.lower()` on an ASCII entry name. -/
def lowerName (n : ZipEntryName) : ZipEntryName := n.map Char.toLower

def contentTypesLower : ZipEntryName := "[content_types].xml".data

def contentTypesCanon : ZipEntryName := "[Content_Types].xml".data

def sharedStringsLower : ZipEntryName := "xl/sharedstrings.xml".data

def sharedStringsCanon : ZipEntryName := "xl/sharedStrings.xml".data

/-- The per-entry renaming performed by `fix_cfx_xlsx` (lines 25-32):
backslashes become slashes, a wrongly-cased `[Content_Types].xml` is
re-cased, and `xl/sharedstrings.xml` is mapped through `FILENAME_FIXES`. -/
def fixEntryName (n : ZipEntryName) : ZipEntryName :=
  let n1 := deslash n
  let n2 := if lowerName n1 = contentTypesLower then contentTypesCanon else n1
  if n2 = sharedStringsLower then sharedStringsCanon else n2

/-- `fix_cfx_xlsx` at the level of the archive's entry-name list: every entry
is rewritten with `fixEntryName` (entry data is copied unchanged). -/
def fix_cfx_xlsx_names (names : List ZipEntryName) : List ZipEntryName :=
  names.map fixEntryName

/-- `needs_fixing` (lines 40-45) at the level of the entry-name list: some
entry name contains a backslash, or is `[Content_Types].xml` up to case but
not exactly. -/
def needs_fixing_names (names : List ZipEntryName) : Bool :=
  names.any (fun n => decide ('\\' ∈ n)) ||
  names.any (fun n => decide (lowerName n = contentTypesLower ∧ n ≠ contentTypesCanon))

lemma mem_deslash_ne_bs {c : Char} {n : ZipEntryName} (h : c ∈ deslash n) :
    c ≠ '\\' := by
  rcases List.mem_map.1 h with ⟨d, _, hd⟩
  by_cases hdb : d = '\\'
  · simp [hdb] at hd
    subst hd
    decide
  · simp [hdb] at hd
    subst hd
    exact hdb

lemma deslash_of_no_bs {n : ZipEntryName} (h : ∀ c ∈ n, c ≠ '\\') :
    deslash n = n := by
  induction n with
  | nil => rfl
  | cons c t ih =>
    have hc : c ≠ '\\' := h c (List.mem_cons_self c t)
    have ht : ∀ x ∈ t, x ≠ '\\' := fun x hx => h x (List.mem_cons_of_mem c hx)
    show (if c = '\\' then '/' else c) :: deslash t = c :: t
    rw [if_neg hc, ih ht]

lemma ctCanon_no_bs : ∀ c ∈ contentTypesCanon, c ≠ '\\' := by decide

lemma ssCanon_no_bs : ∀ c ∈ sharedStringsCanon, c ≠ '\\' := by decide

lemma ctCanon_ne_ssLower : contentTypesCanon ≠ sharedStringsLower := by decide

lemma fixEntryName_eq (n : ZipEntryName) :
    fixEntryName n =
      if lowerName (deslash n) = contentTypesLower then contentTypesCanon
      else if deslash n = sharedStringsLower then sharedStringsCanon
      else deslash n := by
  show (if (if lowerName (deslash n) = contentTypesLower then contentTypesCanon
            else deslash n) = sharedStringsLower then sharedStringsCanon
        else (if lowerName (deslash n) = contentTypesLower then contentTypesCanon
              else deslash n)) = _
  by_cases h1 : lowerName (deslash n) = contentTypesLower
  · rw [if_pos h1, if_pos h1, if_neg ctCanon_ne_ssLower]
  · rw [if_neg h1, if_neg h1]

lemma fixEntryName_no_bs {c : Char} {n : ZipEntryName}
    (h : c ∈ fixEntryName n) : c ≠ '\\' := by
  rw [fixEntryName_eq] at h
  by_cases h1 : lowerName (deslash n) = contentTypesLower
  · rw [if_pos h1] at h
    exact ctCanon_no_bs c h
  · rw [if_neg h1] at h
    by_cases h2 : deslash n = sharedStringsLower
    · rw [if_pos h2] at h
      exact ssCanon_no_bs c h
    · rw [if_neg h2] at h
      exact mem_deslash_ne_bs h

lemma fixEntryName_ct {n : ZipEntryName}
    (h : lowerName (fixEntryName n) = contentTypesLower) :
    fixEntryName n = contentTypesCanon := by
  rw [fixEntryName_eq] at h ⊢
  by_cases h1 : lowerName (deslash n) = contentTypesLower
  · rw [if_pos h1]
  · rw [if_neg h1] at h ⊢
    by_cases h2 : deslash n = sharedStringsLower
    · rw [if_pos h2] at h
      exact absurd h (by decide)
    · rw [if_neg h2] at h
      exact absurd h h1

lemma fixEntryName_idem (n : ZipEntryName) :
    fixEntryName (fixEntryName n) = fixEntryName n := by
  rw [fixEntryName_eq n]
  by_cases h1 : lowerName (deslash n) = contentTypesLower
  · rw [if_pos h1]
    decide
  · rw [if_neg h1]
    by_cases h2 : deslash n = sharedStringsLower
    · rw [if_pos h2]
      decide
    · rw [if_neg h2]
      rw [fixEntryName_eq, deslash_of_no_bs (fun c hc => mem_deslash_ne_bs hc),
        if_neg h1, if_neg h2]

/-! ### Well-id normalization -/

/-! ### Well-id normalization -/

/-- `cfx_xml_parser._normalize_well` (lines 322-326): keep the first character
as-is, re-parse the remainder as an integer, and rebuild.  Python raises on an
empty id or a non-numeric tail; that is modelled as `none`. -/
def normalize_well (well : String) : Option String :=
  match well.data with
  | [] => none
  | c :: rest =>
    match digitsToNat? rest with
    | none => none
    | some col => some (String.mk (c :: (toString col).data))

/-- The inline normalization of `cfx_opus._parse_endpoint_sheet` (lines
196-198): strip, and drop a zero at position 1 of a length-3 id. -/
def endpoint_normalize_well (well : String) : String :=
  match pyStripChars well.data with
  | [a, b, c] => if b = '0' then String.mk [a, c] else String.mk [a, b, c]
  | l => String.mk l

/-! ### `app/parsers/detector.py` routing, and the `.pcrd` passphrase gate -/

/-- The parser branches that `detect_and_parse` can dispatch to.  The source
has no branch calling the encrypted-raw parser `parse_pcrd`; the `.pcrd`
extension is handled by an unconditional `raise ValueError` (lines 53-58). -/
inductive ParserBranch where
  | cfxXmlZip
  | edsRaw
  | quantstudioXls
  | cfxOpusXlsx
deriving DecidableEq, Repr

inductive DetectOutcome where
  | route (b : ParserBranch)
  | reject (msg : String)
deriving DecidableEq, Repr

def pcrdDetectorMsg : String :=
  "Bio-Rad .pcrd files are password-encrypted and cannot be read directly. Please export from CFX Maestro instead."

def pcrdMissingKeyMsg : String :=
  "PCRD_PASSWORD environment variable is not set. The .pcrd format requires a decryption key to parse."

/-- The extension dispatch of `detect_and_parse` (lines 46-68). -/
def detectRoute (ext : String) : DetectOutcome :=
  if ext = ".zip" then .route .cfxXmlZip
  else if ext = ".eds" then .route .edsRaw
  else if ext = ".pcrd" then .reject pcrdDetectorMsg
  else if ext = ".xls" then .route .quantstudioXls
  else if ext = ".xlsx" then .route .cfxOpusXlsx
  else .reject "Unsupported file extension"

/-- Outcome of uploading a `.pcrd` file, as a function of the configured
passphrase.  `detect_and_parse` raises on the `.pcrd` branch before any
parser (and hence the passphrase) is consulted, so the argument is unused. -/
def pcrdUploadOutcome (_password : Option String) : DetectOutcome :=
  detectRoute ".pcrd"

/-- `pcrd_raw._PCRD_PASSWORD` (line 35): the environment value, with the empty
string collapsing to `None` via the `or None` idiom. -/
def pcrdPassword (env : Option String) : Option String :=
  match env with
  | none => none
  | some s => if s = "" then none else some s

/-- The passphrase/emptiness gate of `pcrd_raw._extract_xml` (lines 118-130):
no key is a configuration error; an empty archive is an error; otherwise the
first entry is decrypted.  Returns the name of the entry that is read. -/
def extract_xml_gate (password : Option String) (entryNames : List String) :
    Except String String :=
  match password with
  | none => .error pcrdMissingKeyMsg
  | some _ =>
    match entryNames with
    | [] => .error "Empty .pcrd archive - no files inside."
    | n :: _ => .ok n

/-! ### Shared well-addressing helpers -/

def WELL_ROWS : List Char := "ABCDEFGH".data

/-- Python truncating `int()` on a float. -/
def pyInt (q : ℚ) : Int := if 0 ≤ q then ⌊q⌋ else ⌈q⌉

/-- `pcrd_raw._well_index_to_id` / `eds_raw.well_index_to_id`: 0-based
row-major index to `A1`-`H12`.  Python `//` and `%` are floored division and
modulo, which for the positive divisor 12 coincide with Lean's `Int.ediv` /
`Int.emod` (`/` and `%`); `WELL_ROWS[row]` uses Python list indexing and
raises when the row is out of `[-8, 8)`. -/
def well_index_to_id (idx : Int) : Except String String := do
  let row := idx / 12
  let col := idx % 12 + 1
  let c ← pyIndex WELL_ROWS row
  return String.mk (c :: (toString col).data)

/-- `quantstudio.well_num_to_id`: 1-based well number to `A1`-`H12`. -/
def well_num_to_id (n : Int) : Except String String := do
  let row := (n - 1) / 12
  let col := (n - 1) % 12 + 1
  let c ← pyIndex WELL_ROWS row
  return String.mk (c :: (toString col).data)

/-- `_well_sort_key` (identical in every parser): `(ord(row) - ord("A"),
int(col))`.  Total version: the parsers apply it only to generated ids
`A1`-`H12`, where the integer parse succeeds. -/
def well_sort_key (w : String) : Int × Int :=
  (((w.data.headD 'A').toNat : Int) - 65,
   (((digitsToNat? w.data.tail).getD 0 : Nat) : Int))

/-- Lexicographic comparison on sort keys, as Python compares tuples. -/
def wellKeyLe (a b : String) : Prop :=
  (well_sort_key a).1 < (well_sort_key b).1 ∨
  ((well_sort_key a).1 = (well_sort_key b).1 ∧ (well_sort_key a).2 ≤ (well_sort_key b).2)

instance : DecidableRel wellKeyLe := fun a b => by
  unfold wellKeyLe; infer_instance

/-- `sorted(..., key=_well_sort_key)` (Python sorted is stable, as is
insertion sort). -/
def sortWells (ws : List String) : List String := ws.insertionSort wellKeyLe

/-- `sorted(...)` on integers. -/
def sortInts (l : List Int) : List Int := l.insertionSort (· ≤ ·)

/-- Python `set.add` observed through later `sorted(...)`: membership-based
insert preserving first-insertion order. -/
def setAdd {α : Type} [DecidableEq α] (s : List α) (a : α) : List α :=
  if a ∈ s then s else s ++ [a]

/-! ### `pcrd_raw._parse_plate_reads` core (lines 385-436)

One `plateRead` element: header fields `ChCount`/`NumCols`, the flat
semicolon-delimited stats array `vals`, the dye-to-channel assignment and the
assigned-well set.  The summary layout is channel-major over a fixed
`9 x 12 = 108`-position grid with 4 stats per position; only the mean
(`stat_offset = 0`) is read, and only rows 0-7 are visited. -/

structure WellRFU where
  fam : ℚ
  allele2 : ℚ
  rox : Option ℚ
deriving DecidableEq, Repr

/-- `fam_ch = channel_map.get("FAM", 0)` (line 375). -/
def famChannel (channelMap : List (String × Int)) : Int :=
  (channelMap.lookup "FAM").getD 0

/-- Lines 376-380: first of HEX, VIC present in the channel map, else -1. -/
def allele2Channel (channelMap : List (String × Int)) : Int :=
  match channelMap.lookup "HEX" with
  | some ch => ch
  | none =>
    match channelMap.lookup "VIC" with
    | some ch => ch
    | none => -1

/-- `rox_ch = channel_map.get("ROX", -1)` (line 381). -/
def roxChannel (channelMap : List (String × Int)) : Int :=
  (channelMap.lookup "ROX").getD (-1)

/-- `n_positions = 108` (line 406): 9 rows x 12 cols including the reference
row. -/
def nPositions : Int := 108

/-- `stats_per_ch = n_positions * 4` (line 407). -/
def statsPerCh : Int := nPositions * 4

/-- The row-major `(row, col)` visit order of the nested loops at lines
416-417: rows 0-7 (row 8, the reference row, is never visited), columns
`range(num_cols)`. -/
def plateRowCols (numCols : Int) : List (Nat × Nat) :=
  (List.range 8).flatMap (fun row => (List.range numCols.toNat).map (fun col => (row, col)))

/-- The body of the nested loops (lines 416-434), as structural recursion
over the visit order; `wells` is the dict being built.  Both `plate_idx` and
`pos` of the source equal `row * num_cols + col` and are written inline. -/
def plateReadLoop (famCh a2Ch roxCh numCols : Int) (assigned : List Int)
    (vals : List ℚ) :
    List (Nat × Nat) → List (String × WellRFU) →
    Except String (List (String × WellRFU))
  | [], wells => .ok wells
  | (row, col) :: rest, wells =>
    if ((row : Int) * numCols + (col : Int)) ∈ assigned then
      -- Channel-major: vals[channel * stats_per_ch + pos * 4 + 0]
      pyIndex vals (famCh * statsPerCh + ((row : Int) * numCols + (col : Int)) * 4) >>=
        fun fam_val =>
      (if 0 ≤ a2Ch then
        pyIndex vals (a2Ch * statsPerCh + ((row : Int) * numCols + (col : Int)) * 4)
      else pure 0) >>= fun allele2_val =>
      (if 0 ≤ roxCh then
        pyIndex vals (roxCh * statsPerCh + ((row : Int) * numCols + (col : Int)) * 4) >>=
          fun v => pure (some v)
      else pure none) >>= fun rox_val =>
      well_index_to_id ((row : Int) * numCols + (col : Int)) >>= fun well_id =>
      plateReadLoop famCh a2Ch roxCh numCols assigned vals rest
        (dictInsert wells well_id ⟨fam_val, allele2_val, rox_val⟩)
    else
      plateReadLoop famCh a2Ch roxCh numCols assigned vals rest wells

/-- One plate read (lines 394-436): the length guard preceding the loops,
then the nested row/column loops.  `a2Ch < 0` emits `0.0`, `roxCh < 0` emits
`None`, mirroring lines 426-427. -/
def parse_plate_read (famCh a2Ch roxCh : Int) (assigned : List Int)
    (chCount numCols : Int) (vals : List ℚ) :
    Except String (List (String × WellRFU)) :=
  let expected := chCount * statsPerCh
  if (vals.length : Int) < expected then
    .error "PAr data has fewer values than expected (channels x positions x 4 stats)"
  else
    plateReadLoop famCh a2Ch roxCh numCols assigned vals (plateRowCols numCols) []

/-! ### `pcrd_raw._subtract_baseline` (lines 506-544) -/

/-- One entry of `cycle_data`: a sequential cycle number and the per-well
RFU dict of that read. -/
structure CycleEntry where
  cycle : Int
  wells : List (String × WellRFU)
deriving DecidableEq, Repr

/-- Lines 517-521: index of the first cycle of the first window named
"Amplification" (0-based), defaulting to 0 when no such window exists. -/
def findAmpStartIdx (dws : List DataWindow) : Int :=
  match dws.find? (fun w => w.name = "Amplification") with
  | some w => w.start_cycle - 1
  | none => 0

/-- Lines 543-544: subtract the baseline from the reporter dyes only; the
reference dye (`rox`) is untouched. -/
def subtractRFU (bl : WellRFU) (r : WellRFU) : WellRFU :=
  { r with fam := r.fam - bl.fam, allele2 := r.allele2 - bl.allele2 }

/-- `_subtract_baseline`: copy the baseline dict from the first amplification
cycle's entry, then subtract it from the FAM/allele-2 value of every well
that has a baseline binding, in every cycle.  The in-place mutation of the
source is rendered as a pure rewrite of `cycle_data`. -/
def subtract_baseline (cycleData : List CycleEntry) (dws : List DataWindow) :
    Except String (List CycleEntry) :=
  let ampStartIdx := findAmpStartIdx dws
  if (cycleData.length : Int) ≤ ampStartIdx then .ok cycleData
  else do
    let blEntry ← pyIndex cycleData ampStartIdx
    let baseline := blEntry.wells
    return cycleData.map (fun e =>
      { e with wells := e.wells.map (fun p =>
          match baseline.lookup p.1 with
          | none => p
          | some bl => (p.1, subtractRFU bl p.2)) })

/-! ### `quantstudio.py`: Multicomponent Data .xls parsing

An xlrd sheet is modelled as a list of rows of cells; `cell_value` of a
position beyond a stored row is the empty cell, matching xlrd's padding of
rectangular sheets. -/

/-- An xlrd cell value: number (ints and floats both arrive as numbers),
string, or empty (`''` in xlrd is represented by `.empty`, which behaves as
a non-number and non-string for the `isinstance` tests and strips to `""`). -/
inductive Cell where
  | num (q : ℚ)
  | str (s : String)
  | empty
deriving DecidableEq, Repr

abbrev Sheet := List (List Cell)

def cellValue (sheet : Sheet) (r c : Nat) : Cell :=
  (((sheet.get? r).getD []).get? c).getD .empty

def sheetNRows (sheet : Sheet) : Nat := sheet.length

def sheetNCols (sheet : Sheet) : Nat := (sheet.map List.length).foldr max 0

/-- `isinstance(val, (int, float))`. -/
def Cell.isNum : Cell → Bool
  | .num _ => true
  | _ => false

def Cell.numVal : Cell → ℚ
  | .num q => q
  | _ => 0

/-- `.strip()` on a cell: succeeds on strings (and on xlrd's empty-cell
`''`), raises `AttributeError` on numbers. -/
def Cell.strip : Cell → Except String String
  | .str s => .ok (pyStripStr s)
  | .empty => .ok ""
  | .num _ => .error "AttributeError: float object has no attribute strip"

/-- `quantstudio.find_header_row` (lines 26-32): first row among the first 60
whose column-A value is a string stripping to `"well"` case-insensitively. -/
def find_header_row (sheet : Sheet) : Except String Nat :=
  match (List.range (min 60 (sheetNRows sheet))).find? (fun r =>
      match cellValue sheet r 0 with
      | .str s => pyLower (pyStripStr s) = "well"
      | _ => false) with
  | some r => .ok r
  | none => .error "Could not find header row with Well in column A"

/-- Lines 40-45: the stripped header list and the upper-cased column map
(later duplicates overwrite, as Python dict assignment does). -/
def headerColMap (headers : List String) : List (String × Nat) :=
  (headers.enum).foldl (fun m p => dictInsert m (pyUpper p.2) p.1) []

/-- The per-data-row handling of `parse_quantstudio` (lines 74-104), as a
fold over row indices; returns `(data, wells_set, cycles_set)` accumulated in
order.  A row is skipped when well or cycle is non-numeric, or when the FAM
value is non-numeric; a non-numeric allele-2 value is replaced by `0.0` and a
non-numeric ROX value by `None`. -/
def qsRowStep (sheet : Sheet) (wellCol cycleCol famCol allele2Col : Nat)
    (roxCol : Option Nat)
    (acc : List WellCycleData × List String × List Int) (r : Nat) :
    Except String (List WellCycleData × List String × List Int) :=
  if ¬ ((cellValue sheet r wellCol).isNum ∧ (cellValue sheet r cycleCol).isNum) then
    pure acc
  else
    well_num_to_id (pyInt (cellValue sheet r wellCol).numVal) >>= fun well_id =>
    if ¬ (cellValue sheet r famCol).isNum then
      pure acc
    else
      pure (acc.1 ++
        [{ well := well_id
           cycle := pyInt (cellValue sheet r cycleCol).numVal
           fam := (cellValue sheet r famCol).numVal
           allele2 := if (cellValue sheet r allele2Col).isNum then
             (cellValue sheet r allele2Col).numVal else 0
           rox := match roxCol with
             | some c =>
               if (cellValue sheet r c).isNum then some (cellValue sheet r c).numVal
               else none
             | none => none }],
        setAdd acc.2.1 well_id, setAdd acc.2.2 (pyInt (cellValue sheet r cycleCol).numVal))

/-- Line 40: the stripped header cells (a numeric header cell raises). -/
def qsHeaders (sheet : Sheet) (hr : Nat) : Except String (List String) :=
  (List.range (sheetNCols sheet)).mapM (fun c => (cellValue sheet hr c).strip)

/-- `quantstudio.parse_quantstudio` (lines 35-115). -/
def parse_quantstudio (sheet : Sheet) : Except String UnifiedData := do
  let header_row ← find_header_row sheet
  let headers ← qsHeaders sheet header_row
  let col_map := headerColMap headers
  let well_col := col_map.lookup "WELL"
  let cycle_col := col_map.lookup "CYCLE"
  let fam_col := col_map.lookup "FAM"
  let rox_col := col_map.lookup "ROX"
  match well_col, cycle_col, fam_col with
  | some wc, some cc, some fc =>
    -- Detect allele2 dye: VIC then HEX (lines 55-65)
    let allele2 : Option (String × Nat) :=
      match col_map.lookup "VIC" with
      | some i => some ("VIC", i)
      | none =>
        match col_map.lookup "HEX" with
        | some i => some ("HEX", i)
        | none => none
    match allele2 with
    | none => .error "No VIC or HEX column found."
    | some (allele2_dye, a2c) =>
      -- for r in range(data_start, sheet.nrows)
      (List.range' (header_row + 1) (sheetNRows sheet - (header_row + 1))).foldlM
          (qsRowStep sheet wc cc fc a2c rox_col)
          (([], [], []) : List WellCycleData × List String × List Int) >>=
        fun res =>
      pure { instrument := "QuantStudio 3"
             allele2_dye := allele2_dye
             wells := sortWells res.2.1
             cycles := sortInts res.2.2
             data := res.1
             has_rox := rox_col.isSome
             sample_names := none
             protocol_steps := none
             data_windows :=
               match sortInts res.2.2 with
               | [] => none
               | c :: rest =>
                 some [{ name := "Amplification", start_cycle := c,
                         end_cycle := (c :: rest).getLast (by simp) }] }
  | _, _, _ => .error "Missing required columns."

/-! ### `cfx_opus.py`: wide-format dye sheets and the merge (lines 40-112)

An openpyxl worksheet is modelled like an xlrd sheet (`Cell.empty` is a
`None`-valued cell), with 1-based `ws.cell(row, column)` access. -/

abbrev Workbook := List (String × Sheet)

/-- `ws.cell(row=r, column=c).value`, 1-based. -/
def wsCell (ws : Sheet) (r c : Nat) : Cell := cellValue ws (r - 1) (c - 1)

def wsMaxRow (ws : Sheet) : Nat := ws.length

/-- Python `str(...)` on a cell value (used on header cells). -/
def pyStr : Cell → String
  | .str s => s
  | .num q => toString q
  | .empty => "None"

/-- Python `int(...)` on a cell value: truncates a number, parses a string,
raises otherwise. -/
def cellInt : Cell → Except String Int
  | .num q => .ok (pyInt q)
  | .str s =>
    match pyIntParse s with
    | some n => .ok n
    | none => .error "ValueError: invalid literal for int"
  | .empty => .error "TypeError: int() argument"

/-- `cfx_opus._parse_dye_sheet` (lines 86-112): header row 1 holds well ids
from column index 2 on; each later row holds one cycle and per-well values;
non-numeric values are skipped. -/
def parse_dye_sheet (ws : Sheet) : Except String (List ((String × Int) × ℚ)) := do
  let headers := (ws.get? 0).getD []
  let well_ids := ((headers.enum).filter
    (fun p => 2 ≤ p.1 ∧ p.2 ≠ Cell.empty)).map (fun p => (p.1, pyStr p.2))
  (List.range' 2 (wsMaxRow ws - 1)).foldlM (fun result row_idx => do
    let cycle_val := wsCell ws row_idx 2
    if cycle_val = Cell.empty then
      return result
    let cycle ← cellInt cycle_val
    return well_ids.foldl (fun res p =>
      let val := wsCell ws row_idx (p.1 + 1)
      if val.isNum then dictInsert res (p.2, cycle) val.numVal else res) result) []

/-- Lexicographic order on `(well, cycle)` keys, as Python sorts tuples. -/
def keyLe (a b : String × Int) : Prop :=
  a.1 < b.1 ∨ (a.1 = b.1 ∧ a.2 ≤ b.2)

instance : DecidableRel keyLe := fun a b => by
  unfold keyLe; infer_instance

/-- `sorted(set(fam) | set(allele2))`. -/
def sortedKeyUnion (k1 k2 : List (String × Int)) : List (String × Int) :=
  ((k1 ++ k2).dedup).insertionSort keyLe

/-- One step of the `_parse_workbook` merge loop (lines 59-74): append the
merged reading for one `(well, cycle)` key (`0.0` for a key missing from a
channel's dict, `None` for a missing reference reading) and update the
well/cycle sets. -/
def cfxMergeStep (fam_data allele2_data rox_data : List ((String × Int) × ℚ))
    (has_rox : Bool) (acc : List WellCycleData × List String × List Int)
    (k : String × Int) : List WellCycleData × List String × List Int :=
  (acc.1 ++ [{ well := k.1, cycle := k.2,
               fam := (fam_data.lookup k).getD 0,
               allele2 := (allele2_data.lookup k).getD 0,
               rox := if has_rox then rox_data.lookup k else none }],
   setAdd acc.2.1 k.1, setAdd acc.2.2 k.2)

/-- `cfx_opus._parse_workbook` (lines 40-83): looks up the FAM and allele-2
dye sheets (a missing sheet is a `KeyError`), parses each, and merges over
the union of keys; a key missing from one channel's dict falls back to `0.0`
(lines 60-61), a missing reference reading to `None` (line 62). -/
def parse_workbook (wb : Workbook) : Except String UnifiedData := do
  let sheet_names := wb.map (·.1)
  let allele2_dye := if "HEX" ∈ sheet_names then "HEX" else "VIC"
  let has_rox : Bool := "ROX" ∈ sheet_names
  let famWs ← match wb.lookup "FAM" with
    | some ws => pure ws
    | none => .error "KeyError: FAM"
  let a2Ws ← match wb.lookup allele2_dye with
    | some ws => pure ws
    | none => .error "KeyError: allele2 sheet"
  let fam_data ← parse_dye_sheet famWs
  let allele2_data ← parse_dye_sheet a2Ws
  let rox_data ← if has_rox then
      match wb.lookup "ROX" with
      | some ws => parse_dye_sheet ws
      | none => .error "KeyError: ROX"
    else pure []
  let res := (sortedKeyUnion (fam_data.map (·.1)) (allele2_data.map (·.1))).foldl
    (cfxMergeStep fam_data allele2_data rox_data has_rox)
    (([], [], []) : List WellCycleData × List String × List Int)
  return { instrument := "CFX Opus"
           allele2_dye := allele2_dye
           wells := sortWells res.2.1
           cycles := sortInts res.2.2
           data := res.1
           has_rox := has_rox
           sample_names := none
           protocol_steps := none
           data_windows := none }

/-! ### `eds_raw.py`: the QuantStudio raw parser core

The zip/XML decoding layer is abstracted away: `parse_eds_core` takes the
values that `_parse_multicomponent`, `_parse_plate_setup`,
`_parse_marker_groups`, `_parse_protocol` and `_parse_stage_type_map`
extract from the archive's XML files, and mirrors `parse_eds` lines 99-242.
An absent `tcprotocol.xml` is the empty `stageTypeMap` (the dict is created
empty at line 92 and only filled when the file is found), an absent
`plate_setup.xml` the empty `sampleNames` / `none` marker groups. -/

structure TCStep where
  collectionFlag : String
deriving DecidableEq, Repr

structure TCStage where
  stageFlag : String
  steps : List TCStep
deriving DecidableEq, Repr

/-- `eds_raw._parse_stage_type_map` (lines 445-469): 1-based stage index to
stage type; only CYCLING stages with a collecting step are entered. -/
def parse_stage_type_map (stages : List TCStage) : List (Int × String) :=
  (stages.enum).foldl (fun m p =>
    let i : Int := (p.1 : Int) + 1
    let stage := p.2
    if stage.stageFlag = "CYCLING" then
      if stage.steps.any (fun s => s.collectionFlag = "1") then
        dictInsert m i "CYCLING"
      else m
    else if stage.stageFlag = "PRE_READ" ∨ stage.stageFlag = "POST_READ" ∨
        stage.stageFlag = "PRE_CYCLING" then
      dictInsert m i stage.stageFlag
    else m) []

/-- One step of the flag-classification loop (lines 115-121): append the
position to the amplification, pre-read or post-read list according to the
stage sets the flag belongs to. -/
def phaseStep (cycling pre post : List Int)
    (acc : List Nat × List Nat × List Nat) (p : Nat × Int) :
    List Nat × List Nat × List Nat :=
  if p.2 ∈ cycling then (acc.1, acc.2.1 ++ [p.1], acc.2.2)
  else if p.2 ∈ pre then (acc.1 ++ [p.1], acc.2.1, acc.2.2)
  else if p.2 ∈ post then (acc.1, acc.2.1, acc.2.2 ++ [p.1])
  else acc

/-- `parse_eds` lines 102-126: classify each stage-flag position as
pre-read / amplification / post-read.  With a protocol the flags are read as
1-based stage indices through `stageTypeMap`; without one the legacy fixed
flags 1/5/6 apply. -/
def resolvePhaseIndices (stageFlags : List Int)
    (stageTypeMap : List (Int × String)) :
    List Nat × List Nat × List Nat :=
  if stageTypeMap ≠ [] then
    (stageFlags.enum).foldl
      (phaseStep ((stageTypeMap.filter (fun p => p.2 = "CYCLING")).map (·.1))
        ((stageTypeMap.filter (fun p => p.2 = "PRE_READ")).map (·.1))
        ((stageTypeMap.filter (fun p => p.2 = "POST_READ")).map (·.1)))
      ([], [], [])
  else
    (((stageFlags.enum).filter (fun p => p.2 = 1)).map (·.1),
     ((stageFlags.enum).filter (fun p => p.2 = 5)).map (·.1),
     ((stageFlags.enum).filter (fun p => p.2 = 6)).map (·.1))

/-- Lines 128-141: the dye list of the first assigned well (first key in
sorted order whose dye list is nonempty). -/
def firstNonemptyDyes (dyeMap : List (Int × List String)) :
    Option (List String) :=
  (sortInts (dyeMap.map (·.1))).findSome? (fun k =>
    match dyeMap.lookup k with
    | some dyes => if dyes ≠ [] then some dyes else none
    | none => none)

/-- Lines 136-140: allele-2 dye name and reference-dye presence, read off the
first assigned well's dye list (later matches overwrite). -/
def scanDyesForRoles (dyes : List String) : String × Bool :=
  dyes.foldl (fun acc d =>
    let du := pyUpper d
    (if du = "VIC" ∨ du = "HEX" then du else acc.1,
     if du = "ROX" then true else acc.2)) ("VIC", false)

/-- Lines 146-157: positional indices of FAM, allele-2 and ROX in a dye
list (an `elif` chain; the last occurrence of a role wins). -/
def dyeRoleIndices (dyes : List String) :
    Option Nat × Option Nat × Option Nat :=
  (dyes.enum).foldl (fun acc p =>
    let du := pyUpper p.2
    if du = "FAM" then (some p.1, acc.2.1, acc.2.2)
    else if du = "VIC" ∨ du = "HEX" then (acc.1, some p.1, acc.2.2)
    else if du = "ROX" then (acc.1, acc.2.1, some p.1)
    else acc) (none, none, none)

/-- The inner cycle loop (lines 184-199): `(cycle_num, raw_idx)` pairs from
`enumerate(all_indices, start=1)`; a raw index beyond the FAM array is
skipped, the other arrays are indexed unguarded (an `IndexError` there is
fatal), and an absent or empty reference array yields `None`. -/
def emitCyclePoints (wellId : String) (famArr a2Arr : List ℚ)
    (roxArr? : Option (List ℚ)) :
    List (Nat × Nat) → Except String (List WellCycleData)
  | [] => .ok []
  | (cycleNum, rawIdx) :: rest =>
    if famArr.length ≤ rawIdx then
      emitCyclePoints wellId famArr a2Arr roxArr? rest
    else
      pyIndex famArr rawIdx >>= fun fam_val =>
      pyIndex a2Arr rawIdx >>= fun allele2_val =>
      (match roxArr? with
        | some arr =>
          if arr ≠ [] then pyIndex arr rawIdx >>= fun v => pure (some v)
          else pure none
        | none => pure (none : Option ℚ)) >>= fun rox_val =>
      emitCyclePoints wellId famArr a2Arr roxArr? rest >>= fun restData =>
      pure (({ well := wellId, cycle := (cycleNum : Int), fam := fam_val,
               allele2 := allele2_val, rox := rox_val } : WellCycleData) :: restData)

/-- The per-well body (lines 171-181): the well id, then the FAM, allele-2
and reference arrays selected at the positional indices resolved from the
FIRST assigned well's dye list. -/
def emitWell (famIdx a2Idx : Nat) (roxIdx? : Option Nat) (allIdx : List Nat)
    (wellIdx : Int) (arrays : List (List ℚ)) :
    Except String (List WellCycleData) :=
  well_index_to_id wellIdx >>= fun wellId =>
  pyIndex arrays (famIdx : Int) >>= fun famArr =>
  pyIndex arrays (a2Idx : Int) >>= fun a2Arr =>
  (match roxIdx? with
    | some j => pyIndex arrays (j : Int) >>= fun a => pure (some a)
    | none => pure (none : Option (List ℚ))) >>= fun roxArr? =>
  emitCyclePoints wellId famArr a2Arr roxArr? (List.enumFrom 1 allIdx)

/-- The outer well loop (lines 171-199) over `sorted(signal_map.keys())`;
wells with an empty (or missing) dye list are skipped. -/
def emitAllGo (dyeMap : List (Int × List String))
    (signalMap : List (Int × List (List ℚ))) (famIdx a2Idx : Nat)
    (roxIdx? : Option Nat) (allIdx : List Nat) :
    List Int → Except String (List WellCycleData)
  | [] => .ok []
  | k :: rest =>
    if (dyeMap.lookup k).getD [] = [] then
      emitAllGo dyeMap signalMap famIdx a2Idx roxIdx? allIdx rest
    else
      -- signal_map[well_idx]: the key is drawn from the map, so the lookup succeeds
      emitWell famIdx a2Idx roxIdx? allIdx k ((signalMap.lookup k).getD []) >>=
        fun block =>
      emitAllGo dyeMap signalMap famIdx a2Idx roxIdx? allIdx rest >>=
        fun restData =>
      pure (block ++ restData)

def emitAll (dyeMap : List (Int × List String))
    (signalMap : List (Int × List (List ℚ))) (famIdx a2Idx : Nat)
    (roxIdx? : Option Nat) (allIdx : List Nat) :
    Except String (List WellCycleData) :=
  emitAllGo dyeMap signalMap famIdx a2Idx roxIdx? allIdx
    (sortInts (signalMap.map (·.1)))

/-- Lines 201-212: the data windows built from the per-phase counts. -/
def edsWindows (p a o : Nat) : List DataWindow :=
  (if 0 < p then [{ name := "Pre-read", start_cycle := 1, end_cycle := (p : Int) }] else []) ++
  (if 0 < a then [{ name := "Amplification", start_cycle := (p : Int) + 1,
                    end_cycle := (p : Int) + (a : Int) }] else []) ++
  (if 0 < o then [{ name := "Post-read", start_cycle := (p : Int) + (a : Int) + 1,
                    end_cycle := (p : Int) + (a : Int) + (o : Int) }] else [])

/-- Total variant of `well_index_to_id` for call sites that guard
`0 <= idx < 96` before converting (lines 216-218, 225). -/
def wellId96 (idx : Int) : String :=
  String.mk (((WELL_ROWS.get? (idx / 12).toNat).getD 'A') ::
    (toString (idx % 12 + 1)).data)

/-- Lines 220-229: the multi-assay group map `marker_name -> sorted well
ids`, restricted to indices 0-95 whose well id is in the emitted well set;
collapsed to `None` when one or zero groups remain. -/
def edsComputedWellGroups (markerGroupsRaw : Option (List (String × List Int)))
    (wellsSet : List String) : Option (List (String × List String)) :=
  match markerGroupsRaw with
  | none => none
  | some groups =>
    let wg := groups.foldl (fun acc p =>
      let ids := (p.2.filter (fun idx =>
        0 ≤ idx ∧ idx < 96 ∧ wellId96 idx ∈ wellsSet)).map wellId96
      if ids ≠ [] then acc ++ [(p.1, sortWells ids)] else acc) []
    if wg.length ≤ 1 then none else some wg

/-- `parse_eds` (lines 99-242) from the extracted XML values to the returned
`UnifiedData`. -/
def parse_eds_core (dyeMap : List (Int × List String))
    (signalMap : List (Int × List (List ℚ))) (stageFlags : List Int)
    (stageTypeMap : List (Int × String)) (sampleNames : List (Int × String))
    (markerGroupsRaw : Option (List (String × List Int)))
    (protocolSteps : List ProtocolStep) : Except String UnifiedData := do
  let phases := resolvePhaseIndices stageFlags stageTypeMap
  let preI := phases.1
  let ampI := phases.2.1
  let postI := phases.2.2
  match firstNonemptyDyes dyeMap with
  | none => .error "No assigned wells found in .eds file."
  | some first_dyes =>
    let roles := scanDyesForRoles first_dyes
    let allele2_dye := roles.1
    let has_rox := roles.2
    let idxs := dyeRoleIndices first_dyes
    match idxs.1, idxs.2.1 with
    | some famIdx, some a2Idx => do
      let roxIdx? := idxs.2.2
      let all_indices := preI ++ ampI ++ postI
      let data ← emitAll dyeMap signalMap famIdx a2Idx roxIdx? all_indices
      let wellsSet := data.foldl (fun s d => setAdd s d.well) []
      let cyclesSet := data.foldl (fun s d => setAdd s d.cycle) []
      let windows := edsWindows preI.length ampI.length postI.length
      let sample_names_by_id := sampleNames.foldl (fun m p =>
        if 0 ≤ p.1 ∧ p.1 < 96 then dictInsert m (wellId96 p.1) p.2 else m) []
      -- well_groups is computed (lines 220-229) and passed as a keyword
      -- argument at line 241, but models.UnifiedData has no such field and
      -- pydantic's default configuration silently ignores unknown keyword
      -- arguments, so the value never reaches the returned model.
      let _well_groups := edsComputedWellGroups markerGroupsRaw wellsSet
      return { instrument := "QuantStudio 3 (raw)"
               allele2_dye := allele2_dye
               wells := sortWells wellsSet
               cycles := sortInts cyclesSet
               data := data
               has_rox := has_rox
               sample_names :=
                 if sample_names_by_id = [] then none else some sample_names_by_id
               protocol_steps :=
                 if protocolSteps = [] then none else some protocolSteps
               data_windows := if windows = [] then none else some windows }
    | _, _ => .error "Expected FAM and VIC/HEX dyes in first assigned well's dye list."

/-! ### Concrete example inputs used by witnesses and counterexamples -/

/-- The protocol of spec section 8's end-to-end scenario: stage 1 PRE_READ,
stages 2-4 CYCLING with data collection, stage 5 POST_READ. -/
def exStages5 : List TCStage :=
  [⟨"PRE_READ", [⟨"0"⟩]⟩, ⟨"CYCLING", [⟨"1"⟩]⟩, ⟨"CYCLING", [⟨"1"⟩]⟩,
   ⟨"CYCLING", [⟨"1"⟩]⟩, ⟨"POST_READ", [⟨"0"⟩]⟩]

/-- Two wells (A1, A2), three dyes `[FAM, VIC, ROX]` each. -/
def exDyeMap3 : List (Int × List String) :=
  [(0, ["FAM", "VIC", "ROX"]), (1, ["FAM", "VIC", "ROX"])]

/-- Five readings per dye per well. -/
def exSignalMap3 : List (Int × List (List ℚ)) :=
  [(0, [[10, 11, 12, 13, 14], [20, 21, 22, 23, 24], [30, 31, 32, 33, 34]]),
   (1, [[40, 41, 42, 43, 44], [50, 51, 52, 53, 54], [60, 61, 62, 63, 64]])]

/-- Two wells whose dye lists are in different orders: well 0 is
`[FAM, VIC]`, well 1 is `[VIC, FAM]`. -/
def exDyeMapMixed : List (Int × List String) :=
  [(0, ["FAM", "VIC"]), (1, ["VIC", "FAM"])]

/-- Well 0: FAM array `[1]`, VIC array `[2]`.  Well 1 (dye order
`[VIC, FAM]`): VIC array `[10]`, FAM array `[20]`. -/
def exSignalMapMixed : List (Int × List (List ℚ)) :=
  [(0, [[1], [2]]), (1, [[10], [20]])]

/-- Two marker groups covering wells 0 and 1. -/
def exMarkerGroups : List (String × List Int) := [("M1", [0]), ("M2", [1])]

/-- A Multicomponent Data sheet whose native cycle numbers are 2 and 3. -/
def exQsSheet : Sheet :=
  [[.str "Well", .str "Cycle", .str "FAM", .str "VIC"],
   [.num 1, .num 2, .num 100, .num 50],
   [.num 1, .num 3, .num 110, .num 60]]

/-- A CFX workbook whose FAM sheet has a header row but no data rows, while
the HEX sheet holds one reading for well A1 at cycle 1. -/
def exWbEmptyFam : Workbook :=
  [("FAM", [[.empty, .str "Cycle", .str "A1"]]),
   ("HEX", [[.empty, .str "Cycle", .str "A1"], [.empty, .num 1, .num 5]])]

/-- Three cycle entries for one well. -/
def exCycleData : List CycleEntry :=
  [⟨1, [("A1", ⟨5, 7, some 3⟩)]⟩, ⟨2, [("A1", ⟨6, 9, some 4⟩)]⟩,
   ⟨3, [("A1", ⟨8, 13, some 5⟩)]⟩]

/-- Pre-read cycle 1, amplification cycles 2-3. -/
def exWindows : List DataWindow := [⟨"Pre-read", 1, 1⟩, ⟨"Amplification", 2, 3⟩]

/-- A two-channel summary array: the value at each index is the index
itself, so a read from the wrong position is immediately visible. -/
def exVals : List ℚ := (List.range (2 * 432)).map (fun i => (i : ℚ))

/-! ### Claim-side vocabulary (spec section 3 invariants) -/

/-- The contiguous cycle list `1..n`. -/
def oneToN (n : Nat) : List Int := (List.range n).map (fun (i : Nat) => (i : Int) + 1)

/-- The emitted cycle sequence of one well, in emission order. -/
def cyclesOfWell (u : UnifiedData) (w : String) : List Int :=
  (u.data.filter (fun d => d.well = w)).map (fun d => d.cycle)

def windowLength (w : DataWindow) : Int := w.end_cycle - w.start_cycle + 1

/-- The summed DataWindow length of the output. -/
def totalWindowLength (u : UnifiedData) : Int :=
  (((u.data_windows.getD []).map windowLength)).sum

/-- The cycles an inclusive window covers. -/
def windowCycles (w : DataWindow) : List Int :=
  (List.range (windowLength w).toNat).map (fun (i : Nat) => w.start_cycle + (i : Int))

/-- Spec invariant: the `(well, cycle)` pairs of the emitted readings are
unique. -/
def pairsUnique (u : UnifiedData) : Prop :=
  (u.data.map (fun d => (d.well, d.cycle))).Nodup

/-- Spec invariant: the emitted DataWindows, concatenated, cover exactly the
contiguous cycle range `1..N` with no overlap or gap. -/
def windowsPartition (u : UnifiedData) : Prop :=
  (u.data_windows.getD []).flatMap windowCycles = oneToN (totalWindowLength u).toNat

/-! ### Helper lemmas about the Python-semantics primitives -/

lemma pyNormIdx_of_nonneg {len : Nat} {i : Int} (h : 0 ≤ i) :
    pyNormIdx len i = i := if_neg (not_lt.2 h)

lemma pyIndex_of_nonneg {α : Type} (l : List α) (i : Int) (h0 : 0 ≤ i)
    (hlt : i.toNat < l.length) :
    pyIndex l i = .ok (l.get ⟨i.toNat, hlt⟩) := by
  unfold pyIndex
  simp only [pyNormIdx_of_nonneg h0]
  rw [dif_pos ⟨h0, hlt⟩]

lemma pyIndex_eq_ok {α : Type} {l : List α} {i : Int} {a : α}
    (h : pyIndex l i = .ok a) :
    l.get? (pyNormIdx l.length i).toNat = some a := by
  unfold pyIndex at h
  by_cases hc : 0 ≤ pyNormIdx l.length i ∧ (pyNormIdx l.length i).toNat < l.length
  · rw [dif_pos hc] at h
    exact List.get?_eq_some.2 ⟨hc.2, by injection h⟩
  · rw [dif_neg hc] at h
    exact absurd h (by simp)

lemma pyIndex_natCast_eq_ok {α : Type} {l : List α} {n : Nat} {a : α}
    (h : pyIndex l (n : Int) = .ok a) : l.get? n = some a := by
  have h' := pyIndex_eq_ok h
  have hidx : (pyNormIdx l.length (n : Int)).toNat = n := by
    rw [pyNormIdx_of_nonneg (by positivity)]
    simp
  rw [hidx] at h'
  exact h'

lemma pyIndex_natCast_of_get? {α : Type} {l : List α} {n : Nat} {a : α}
    (h : l.get? n = some a) : pyIndex l (n : Int) = .ok a := by
  have hlt : n < l.length := List.get?_eq_some.1 h |>.1
  rw [pyIndex_of_nonneg l (n : Int) (by positivity) (by simpa using hlt)]
  congr 1
  have := List.get?_eq_some.1 h |>.2
  simpa using this

lemma get?_map_some {α β : Type} {l : List α} {i : Nat} {a : α} (f : α → β)
    (h : l.get? i = some a) : (l.map f).get? i = some (f a) := by
  rw [List.get?_map, h]
  rfl

/-- Lookup through the per-well baseline-subtraction map. -/
lemma lookup_subtract_map (bl : List (String × WellRFU))
    (l : List (String × WellRFU)) (k : String) :
    (l.map (fun p =>
      match bl.lookup p.1 with
      | none => p
      | some b => (p.1, subtractRFU b p.2))).lookup k =
    (l.lookup k).map (fun r =>
      match bl.lookup k with
      | none => r
      | some b => subtractRFU b r) := by
  induction l with
  | nil => rfl
  | cons p t ih =>
    obtain ⟨a, b⟩ := p
    by_cases hk : k = a
    · subst hk
      cases hbl : bl.lookup k <;>
        simp only [List.map_cons, hbl] <;>
        simp [List.lookup, hbl]
    · have hbeq : (k == a) = false := beq_eq_false_iff_ne.2 hk
      cases hbl : bl.lookup a <;>
        simp only [List.map_cons, hbl] <;>
        simp [List.lookup, hbeq, ih]

lemma except_bind_ok {ε α β : Type} {x : Except ε α} {f : α → Except ε β}
    {b : β} (h : (x >>= f) = .ok b) : ∃ a, x = .ok a ∧ f a = .ok b := by
  cases x with
  | error e =>
    simp only [bind, Except.bind] at h
    exact absurd h (by simp)
  | ok a =>
    simp only [bind, Except.bind] at h
    exact ⟨a, rfl, h⟩

lemma mem_dictInsert {K V : Type} [DecidableEq K] {d : List (K × V)} {k : K}
    {v : V} {p : K × V} (h : p ∈ dictInsert d k v) : p ∈ d ∨ p = (k, v) := by
  unfold dictInsert at h
  split at h
  · rcases List.mem_map.1 h with ⟨q, hq, hqe⟩
    by_cases hqk : q.1 = k
    · right
      rw [if_pos hqk] at hqe
      exact hqe.symm
    · left
      rw [if_neg hqk] at hqe
      exact hqe ▸ hq
  · rcases List.mem_append.1 h with h | h
    · left
      exact h
    · right
      simpa using h

/-- The channel-major contract of one emitted well entry: its plate index is
an assigned index inside the 8 well rows (so the 9th, reference, row is
never read), its FAM value is the mean read at
`channel * (positions * 4) + position * 4 + 0`, and likewise for the
allele-2 and reference channels when they are mapped. -/
def ChannelMajorAt (famCh a2Ch roxCh : Int) (vals : List ℚ)
    (assigned : List Int) (p : String × WellRFU) : Prop :=
  ∃ idx : Int, idx ∈ assigned ∧ 0 ≤ idx ∧ idx < 96 ∧
    well_index_to_id idx = .ok p.1 ∧
    pyIndex vals (famCh * statsPerCh + idx * 4) = .ok p.2.fam ∧
    (0 ≤ a2Ch → pyIndex vals (a2Ch * statsPerCh + idx * 4) = .ok p.2.allele2) ∧
    (a2Ch < 0 → p.2.allele2 = 0) ∧
    (0 ≤ roxCh → ∃ v, p.2.rox = some v ∧
      pyIndex vals (roxCh * statsPerCh + idx * 4) = .ok v) ∧
    (roxCh < 0 → p.2.rox = none)

lemma plateReadLoop_ok_mem {famCh a2Ch roxCh : Int} {assigned : List Int}
    {vals : List ℚ} :
    ∀ (pairs : List (Nat × Nat)) (wells out : List (String × WellRFU)),
      plateReadLoop famCh a2Ch roxCh 12 assigned vals pairs wells = .ok out →
      (∀ rc ∈ pairs, rc.1 < 8 ∧ rc.2 < 12) →
      ∀ p ∈ out, p ∈ wells ∨ ChannelMajorAt famCh a2Ch roxCh vals assigned p := by
  intro pairs
  induction pairs with
  | nil =>
    intro wells out h _ p hp
    left
    injection h with h'
    exact h' ▸ hp
  | cons rc rest ih =>
    obtain ⟨row, col⟩ := rc
    intro wells out h hpairs p hp
    have hbounds := hpairs (row, col) (List.mem_cons_self _ _)
    have hrest : ∀ rc ∈ rest, rc.1 < 8 ∧ rc.2 < 12 :=
      fun rc hrc => hpairs rc (List.mem_cons_of_mem _ hrc)
    rw [plateReadLoop] at h
    by_cases hm : ((row : Int) * 12 + (col : Int)) ∈ assigned
    · rw [if_pos hm] at h
      rcases except_bind_ok h with ⟨fam_val, hfam, h2⟩
      rcases except_bind_ok h2 with ⟨a2_val, ha2, h3⟩
      rcases except_bind_ok h3 with ⟨rox_val, hrox, h4⟩
      rcases except_bind_ok h4 with ⟨wid, hwid, h5⟩
      rcases ih _ _ h5 hrest p hp with hmem | hcma
      · rcases mem_dictInsert hmem with hmem' | rfl
        · left
          exact hmem'
        · right
          refine ⟨(row : Int) * 12 + (col : Int), hm, by positivity, ?_, hwid,
            hfam, ?_, ?_, ?_, ?_⟩
          · have h8 : row < 8 := hbounds.1
            have h12 : col < 12 := hbounds.2
            have : (row : Int) ≤ 7 := by exact_mod_cast Nat.lt_succ_iff.1 h8
            have : (col : Int) ≤ 11 := by exact_mod_cast Nat.lt_succ_iff.1 h12
            omega
          · intro hpos
            rwa [if_pos hpos] at ha2
          · intro hneg
            rw [if_neg (not_le.2 hneg)] at ha2
            injection ha2 with ha2'
            exact ha2'.symm
          · intro hpos
            rw [if_pos hpos] at hrox
            rcases except_bind_ok hrox with ⟨v, hv, hvpure⟩
            injection hvpure with hvpure'
            exact ⟨v, hvpure'.symm, hv⟩
          · intro hneg
            rw [if_neg (not_le.2 hneg)] at hrox
            injection hrox with hrox'
            exact hrox'.symm
      · right
        exact hcma
    · rw [if_neg hm] at h
      exact ih _ _ h hrest p hp

/-! ### Utilities for the eds emission proofs -/

lemma mem_setAdd {α : Type} [DecidableEq α] {s : List α} {a b : α} :
    b ∈ setAdd s a ↔ b ∈ s ∨ b = a := by
  unfold setAdd
  by_cases h : a ∈ s
  · rw [if_pos h]
    constructor
    · exact Or.inl
    · rintro (hb | rfl)
      · exact hb
      · exact h
  · rw [if_neg h]
    simp

lemma mem_foldl_setAdd {α β : Type} [DecidableEq β] (f : α → β) :
    ∀ (l : List α) (init : List β) (b : β),
      b ∈ l.foldl (fun s d => setAdd s (f d)) init ↔ b ∈ init ∨ ∃ d ∈ l, f d = b := by
  intro l
  induction l with
  | nil => simp
  | cons d t ih =>
    intro init b
    rw [List.foldl_cons, ih, mem_setAdd]
    constructor
    · rintro ((hb | rfl) | ⟨d', hd', rfl⟩)
      · exact Or.inl hb
      · exact Or.inr ⟨d, List.mem_cons_self _ _, rfl⟩
      · exact Or.inr ⟨d', List.mem_cons_of_mem _ hd', rfl⟩
    · rintro (hb | ⟨d', hd', rfl⟩)
      · exact Or.inl (Or.inl hb)
      · rcases List.mem_cons.1 hd' with rfl | hd''
        · exact Or.inl (Or.inr rfl)
        · exact Or.inr ⟨d', hd'', rfl⟩

lemma mem_enumFrom_bounds {α : Type} :
    ∀ {l : List α} {n : Nat} {p : Nat × α}, p ∈ List.enumFrom n l →
      n ≤ p.1 ∧ p.1 < n + l.length ∧ p.2 ∈ l := by
  intro l
  induction l with
  | nil => intro n p h; cases h
  | cons a t ih =>
    intro n p h
    rcases List.mem_cons.1 h with rfl | h'
    · exact ⟨le_refl _, by simp, List.mem_cons_self _ _⟩
    · rcases ih h' with ⟨h1, h2, h3⟩
      exact ⟨le_trans (Nat.le_succ n) h1, by simpa [Nat.succ_add] using h2,
        List.mem_cons_of_mem _ h3⟩

/-- Consecutive integers `s, s+1, ..., s+n-1`. -/
def rangeFrom (s : Int) (n : Nat) : List Int :=
  (List.range n).map (fun (i : Nat) => s + (i : Int))

lemma rangeFrom_zero (s : Int) : rangeFrom s 0 = [] := rfl

lemma rangeFrom_concat (s : Int) (n : Nat) :
    rangeFrom s (n + 1) = rangeFrom s n ++ [s + (n : Int)] := by
  unfold rangeFrom
  rw [List.range_succ, List.map_append]
  rfl

lemma rangeFrom_cons (s : Int) (n : Nat) :
    rangeFrom s (n + 1) = s :: rangeFrom (s + 1) n := by
  unfold rangeFrom
  rw [List.range_succ_eq_map, List.map_cons, List.map_map]
  refine congrArg₂ _ (by simp) ?_
  apply List.map_congr_left
  intro i _
  simp only [Function.comp_apply]
  push_cast
  ring

lemma rangeFrom_append (s : Int) (m n : Nat) :
    rangeFrom s (m + n) = rangeFrom s m ++ rangeFrom (s + (m : Int)) n := by
  induction n with
  | zero => simp [rangeFrom_zero]
  | succ n ih =>
    rw [show m + (n + 1) = (m + n) + 1 from rfl, rangeFrom_concat, ih,
      rangeFrom_concat, List.append_assoc]
    have hc : s + ((m + n : Nat) : Int) = s + (m : Int) + (n : Int) := by
      push_cast
      ring
    rw [hc]

lemma oneToN_eq_rangeFrom (n : Nat) : oneToN n = rangeFrom 1 n := by
  unfold oneToN rangeFrom
  apply List.map_congr_left
  intro i _
  ring

lemma oneToN_nodup (n : Nat) : (oneToN n).Nodup := by
  unfold oneToN
  refine List.Nodup.map ?_ (List.nodup_range n)
  intro i j h
  have h2 : (i : Int) + 1 = (j : Int) + 1 := h
  omega

lemma enumFrom_fst_cast_gen :
    ∀ (l : List Nat) (s : Nat),
      (List.enumFrom s l).map (fun pr => (pr.1 : Int)) = rangeFrom (s : Int) l.length := by
  intro l
  induction l with
  | nil => intro s; rfl
  | cons a t ih =>
    intro s
    simp only [List.enumFrom_cons, List.map_cons, List.length_cons]
    rw [ih (s + 1), rangeFrom_cons]
    push_cast
    rfl

lemma enumFrom_fst_cast (l : List Nat) :
    (List.enumFrom 1 l).map (fun pr => (pr.1 : Int)) = oneToN l.length := by
  rw [enumFrom_fst_cast_gen l 1, oneToN_eq_rangeFrom]
  rfl

lemma emitCyclePoints_mem {wellId : String} {famArr a2Arr : List ℚ}
    {roxArr? : Option (List ℚ)} :
    ∀ (pairs : List (Nat × Nat)) (out : List WellCycleData),
      emitCyclePoints wellId famArr a2Arr roxArr? pairs = .ok out →
      ∀ d ∈ out, d.well = wellId ∧ ∃ pr ∈ pairs, d.cycle = (pr.1 : Int) ∧
        pyIndex famArr (pr.2 : Int) = .ok d.fam ∧
        pyIndex a2Arr (pr.2 : Int) = .ok d.allele2 := by
  intro pairs
  induction pairs with
  | nil =>
    intro out h d hd
    injection h with h'
    rw [← h'] at hd
    cases hd
  | cons pr rest ih =>
    obtain ⟨c, i⟩ := pr
    intro out h d hd
    simp only [emitCyclePoints] at h
    by_cases hskip : famArr.length ≤ i
    · rw [if_pos hskip] at h
      rcases ih _ h d hd with ⟨hw, pr', hpr', hrest⟩
      exact ⟨hw, pr', List.mem_cons_of_mem _ hpr', hrest⟩
    · rw [if_neg hskip] at h
      rcases except_bind_ok h with ⟨fv, hf, h2⟩
      rcases except_bind_ok h2 with ⟨av, ha, h3⟩
      rcases except_bind_ok h3 with ⟨rv, _, h4⟩
      rcases except_bind_ok h4 with ⟨restData, hrd, h5⟩
      injection h5 with h5'
      rw [← h5'] at hd
      rcases List.mem_cons.1 hd with rfl | hd''
      · exact ⟨rfl, (c, i), List.mem_cons_self _ _, rfl, hf, ha⟩
      · rcases ih _ hrd d hd'' with ⟨hw, pr', hpr', hrest⟩
        exact ⟨hw, pr', List.mem_cons_of_mem _ hpr', hrest⟩

lemma emitCyclePoints_cycles {wellId : String} {famArr a2Arr : List ℚ}
    {roxArr? : Option (List ℚ)} :
    ∀ (pairs : List (Nat × Nat)) (out : List WellCycleData),
      emitCyclePoints wellId famArr a2Arr roxArr? pairs = .ok out →
      (∀ pr ∈ pairs, pr.2 < famArr.length) →
      out.map (fun d => d.cycle) = pairs.map (fun pr => (pr.1 : Int)) := by
  intro pairs
  induction pairs with
  | nil =>
    intro out h _
    injection h with h'
    rw [← h']
    rfl
  | cons pr rest ih =>
    obtain ⟨c, i⟩ := pr
    intro out h hcov
    simp only [emitCyclePoints] at h
    by_cases hskip : famArr.length ≤ i
    · exact absurd (hcov (c, i) (List.mem_cons_self _ _)) (by simpa using hskip)
    · rw [if_neg hskip] at h
      rcases except_bind_ok h with ⟨fv, _, h2⟩
      rcases except_bind_ok h2 with ⟨av, _, h3⟩
      rcases except_bind_ok h3 with ⟨rv, _, h4⟩
      rcases except_bind_ok h4 with ⟨restData, hrd, h5⟩
      injection h5 with h5'
      rw [← h5']
      simp only [List.map_cons]
      rw [ih _ hrd (fun pr hpr => hcov pr (List.mem_cons_of_mem _ hpr))]

lemma emitWell_ok {famIdx a2Idx : Nat} {roxIdx? : Option Nat}
    {allIdx : List Nat} {k : Int} {arrays : List (List ℚ)}
    {out : List WellCycleData}
    (h : emitWell famIdx a2Idx roxIdx? allIdx k arrays = .ok out) :
    ∃ wellId famArr a2Arr roxArr?,
      well_index_to_id k = .ok wellId ∧
      arrays.get? famIdx = some famArr ∧
      arrays.get? a2Idx = some a2Arr ∧
      emitCyclePoints wellId famArr a2Arr roxArr? (List.enumFrom 1 allIdx) = .ok out := by
  unfold emitWell at h
  rcases except_bind_ok h with ⟨wellId, hw, h2⟩
  rcases except_bind_ok h2 with ⟨famArr, hf, h3⟩
  rcases except_bind_ok h3 with ⟨a2Arr, ha, h4⟩
  rcases except_bind_ok h4 with ⟨roxA, _, h5⟩
  exact ⟨wellId, famArr, a2Arr, roxA, hw, pyIndex_natCast_eq_ok hf,
    pyIndex_natCast_eq_ok ha, h5⟩

lemma emitAllGo_mem_values {dyeMap : List (Int × List String)}
    {signalMap : List (Int × List (List ℚ))} {famIdx a2Idx : Nat}
    {roxIdx? : Option Nat} {allIdx : List Nat} :
    ∀ (keys : List Int) (out : List WellCycleData),
      emitAllGo dyeMap signalMap famIdx a2Idx roxIdx? allIdx keys = .ok out →
      ∀ d ∈ out, ∃ k ∈ keys, ∃ famArr a2Arr rawIdx,
        well_index_to_id k = .ok d.well ∧
        ((signalMap.lookup k).getD []).get? famIdx = some famArr ∧
        ((signalMap.lookup k).getD []).get? a2Idx = some a2Arr ∧
        rawIdx ∈ allIdx ∧
        pyIndex famArr (rawIdx : Int) = .ok d.fam ∧
        pyIndex a2Arr (rawIdx : Int) = .ok d.allele2 := by
  intro keys
  induction keys with
  | nil =>
    intro out h d hd
    injection h with h'
    rw [← h'] at hd
    cases hd
  | cons k rest ih =>
    intro out h d hd
    rw [emitAllGo] at h
    by_cases hempty : (dyeMap.lookup k).getD [] = []
    · rw [if_pos hempty] at h
      rcases ih _ h d hd with ⟨k', hk', rest'⟩
      exact ⟨k', List.mem_cons_of_mem _ hk', rest'⟩
    · rw [if_neg hempty] at h
      rcases except_bind_ok h with ⟨block, hb, h2⟩
      rcases except_bind_ok h2 with ⟨restData, hr, h3⟩
      injection h3 with h3'
      rw [← h3'] at hd
      rcases List.mem_append.1 hd with hdb | hdr
      · rcases emitWell_ok hb with ⟨wellId, famArr, a2Arr, roxA, hwid, hfg, hag, hcyc⟩
        rcases emitCyclePoints_mem _ _ hcyc d hdb with ⟨hw, pr, hpr, _, hfam, ha2⟩
        refine ⟨k, List.mem_cons_self _ _, famArr, a2Arr, pr.2, ?_, hfg, hag,
          (mem_enumFrom_bounds hpr).2.2, hfam, ha2⟩
        rw [hw]
        exact hwid
      · rcases ih _ hr d hdr with ⟨k', hk', rest'⟩
        exact ⟨k', List.mem_cons_of_mem _ hk', rest'⟩

lemma well_index_to_id_components {i : Int} {w : String}
    (h : well_index_to_id i = .ok w) (h0 : 0 ≤ i) :
    ∃ c, WELL_ROWS.get? (i / 12).toNat = some c ∧
      w = String.mk (c :: (toString (i % 12 + 1)).data) := by
  unfold well_index_to_id at h
  rcases except_bind_ok h with ⟨c, hc, hpure⟩
  injection hpure with hpure'
  have hrow0 : (0 : Int) ≤ i / 12 := Int.ediv_nonneg h0 (by norm_num)
  have hc' := pyIndex_eq_ok hc
  rw [pyNormIdx_of_nonneg hrow0] at hc'
  exact ⟨c, hc', hpure'.symm⟩

lemma well_index_to_id_inj {i j : Int} {w : String}
    (h0i : 0 ≤ i) (h96i : i < 96) (h0j : 0 ≤ j) (h96j : j < 96)
    (hi : well_index_to_id i = .ok w) (hj : well_index_to_id j = .ok w) :
    i = j := by
  rcases well_index_to_id_components hi h0i with ⟨c1, hc1, hw1⟩
  rcases well_index_to_id_components hj h0j with ⟨c2, hc2, hw2⟩
  have hAB := hw1.symm.trans hw2
  injection hAB with hlist
  injection hlist with hc ht
  have hrow : i / 12 = j / 12 := by
    have hrowinj : ∀ a b : Fin 8,
        WELL_ROWS.get? (a : Nat) = WELL_ROWS.get? (b : Nat) → a = b := by decide
    have hbi : (i / 12).toNat < 8 := by omega
    have hbj : (j / 12).toNat < 8 := by omega
    have := hrowinj ⟨(i / 12).toNat, hbi⟩ ⟨(j / 12).toNat, hbj⟩
      (by rw [hc1, hc2, hc])
    have hval : (i / 12).toNat = (j / 12).toNat := congrArg Fin.val this
    omega
  have hcol : i % 12 = j % 12 := by
    have hcolinj : ∀ a b : Fin 12,
        (toString ((a : Nat) + 1 : Int)).data = (toString ((b : Nat) + 1 : Int)).data →
          a = b := by decide
    have hbi : (i % 12).toNat < 12 := by omega
    have hbj : (j % 12).toNat < 12 := by omega
    have hcasti : (((i % 12).toNat : Nat) + 1 : Int) = i % 12 + 1 := by omega
    have hcastj : (((j % 12).toNat : Nat) + 1 : Int) = j % 12 + 1 := by omega
    have hfin := hcolinj ⟨(i % 12).toNat, hbi⟩ ⟨(j % 12).toNat, hbj⟩
      (by rw [hcasti, hcastj, ht])
    have hval : (i % 12).toNat = (j % 12).toNat := congrArg Fin.val hfin
    omega
  omega

lemma emitAllGo_invariant {dyeMap : List (Int × List String)}
    {signalMap : List (Int × List (List ℚ))} {famIdx a2Idx : Nat}
    {roxIdx? : Option Nat} {allIdx : List Nat} :
    ∀ (keys : List Int) (out : List WellCycleData),
      emitAllGo dyeMap signalMap famIdx a2Idx roxIdx? allIdx keys = .ok out →
      keys.Nodup →
      (∀ k ∈ keys, 0 ≤ k ∧ k < 96) →
      (∀ k ∈ keys, ∀ arr ∈ (signalMap.lookup k).getD [], ∀ i ∈ allIdx, i < arr.length) →
      (∀ d ∈ out, ∃ k ∈ keys, well_index_to_id k = .ok d.well) ∧
      (∀ w, out.filter (fun d => d.well = w) = [] ∨
        (out.filter (fun d => d.well = w)).map (fun d => d.cycle) =
          oneToN allIdx.length) ∧
      (out.map (fun d => (d.well, d.cycle))).Nodup := by
  intro keys
  induction keys with
  | nil =>
    intro out h _ _ _
    injection h with h'
    subst h'
    exact ⟨fun d hd => absurd hd (List.not_mem_nil d), fun w => Or.inl rfl,
      List.nodup_nil⟩
  | cons k rest ih =>
    intro out h hnd hrange hcov
    rw [emitAllGo] at h
    by_cases hempty : (dyeMap.lookup k).getD [] = []
    · rw [if_pos hempty] at h
      rcases ih _ h (List.nodup_cons.1 hnd).2
        (fun k' hk' => hrange k' (List.mem_cons_of_mem _ hk'))
        (fun k' hk' => hcov k' (List.mem_cons_of_mem _ hk')) with ⟨ih1, ih2, ih3⟩
      exact ⟨fun d hd => (ih1 d hd).imp
        (fun k' hk' => ⟨List.mem_cons_of_mem _ hk'.1, hk'.2⟩), ih2, ih3⟩
    · rw [if_neg hempty] at h
      rcases except_bind_ok h with ⟨block, hb, h2⟩
      rcases except_bind_ok h2 with ⟨restData, hr, h3⟩
      injection h3 with h3'
      subst h3'
      rcases ih _ hr (List.nodup_cons.1 hnd).2
        (fun k' hk' => hrange k' (List.mem_cons_of_mem _ hk'))
        (fun k' hk' => hcov k' (List.mem_cons_of_mem _ hk')) with ⟨ih1, ih2, ih3⟩
      rcases emitWell_ok hb with ⟨wellId, famArr, a2Arr, roxA, hwid, hfg, _, hcyc⟩
      have hfamMem : famArr ∈ (signalMap.lookup k).getD [] := List.get?_mem hfg
      have hcovFam : ∀ pr ∈ List.enumFrom 1 allIdx, pr.2 < famArr.length :=
        fun pr hpr => hcov k (List.mem_cons_self _ _) famArr hfamMem pr.2
          (mem_enumFrom_bounds hpr).2.2
      have hblockwell : ∀ d ∈ block, d.well = wellId :=
        fun d hd => (emitCyclePoints_mem _ _ hcyc d hd).1
      have hblockcycles : block.map (fun d => d.cycle) = oneToN allIdx.length := by
        rw [emitCyclePoints_cycles _ _ hcyc hcovFam, enumFrom_fst_cast]
      have hrk := hrange k (List.mem_cons_self _ _)
      have hrestNe : ∀ d ∈ restData, d.well ≠ wellId := by
        intro d hd hdw
        rcases ih1 d hd with ⟨k', hk', hwid'⟩
        have hrk' := hrange k' (List.mem_cons_of_mem _ hk')
        rw [hdw] at hwid'
        have hkk : k = k' :=
          well_index_to_id_inj hrk.1 hrk.2 hrk'.1 hrk'.2 hwid hwid'
        exact (List.nodup_cons.1 hnd).1 (hkk ▸ hk')
      refine ⟨?_, ?_, ?_⟩
      · intro d hd
        rcases List.mem_append.1 hd with hdb | hdr
        · exact ⟨k, List.mem_cons_self _ _, by rw [hblockwell d hdb]; exact hwid⟩
        · rcases ih1 d hdr with ⟨k', hk', hw'⟩
          exact ⟨k', List.mem_cons_of_mem _ hk', hw'⟩
      · intro w
        rw [List.filter_append]
        by_cases hw : wellId = w
        · right
          have hfb : block.filter (fun d => d.well = w) = block :=
            List.filter_eq_self.2 (fun d hd => by simp [hblockwell d hd, hw])
          have hfr : restData.filter (fun d => d.well = w) = [] :=
            List.filter_eq_nil_iff.2
              (fun d hd => by simp [hw ▸ hrestNe d hd])
          rw [hfb, hfr, List.append_nil]
          exact hblockcycles
        · have hfb : block.filter (fun d => d.well = w) = [] :=
            List.filter_eq_nil_iff.2 (fun d hd => by
              simp only [decide_eq_true_eq]
              rw [hblockwell d hd]
              exact hw)
          rw [hfb, List.nil_append]
          exact ih2 w
      · rw [List.map_append]
        refine List.nodup_append.2 ⟨?_, ih3, ?_⟩
        · have hmapeq : block.map (fun d => (d.well, d.cycle)) =
              (block.map (fun d => d.cycle)).map (fun c => (wellId, c)) := by
            rw [List.map_map]
            apply List.map_congr_left
            intro d hd
            simp [hblockwell d hd]
          rw [hmapeq, hblockcycles]
          refine List.Nodup.map ?_ (oneToN_nodup _)
          intro c1 c2 hcc
          injection hcc with _ h2
        · intro x hx1 hx2
          rcases List.mem_map.1 hx1 with ⟨d, hd, rfl⟩
          rcases List.mem_map.1 hx2 with ⟨d', hd', he⟩
          have hwe : d'.well = d.well := congrArg Prod.fst he
          exact hrestNe d' hd' (hwe.trans (hblockwell d hd))

lemma windowCycles_pre (p : Nat) :
    windowCycles ⟨"Pre-read", 1, (p : Int)⟩ = rangeFrom 1 p := by
  unfold windowCycles windowLength
  rw [show (((p : Int) - 1 + 1)).toNat = p from by omega]
  rfl

lemma windowCycles_amp (p a : Nat) :
    windowCycles ⟨"Amplification", (p : Int) + 1, (p : Int) + (a : Int)⟩ =
      rangeFrom ((p : Int) + 1) a := by
  unfold windowCycles windowLength
  rw [show (((p : Int) + (a : Int) - ((p : Int) + 1) + 1)).toNat = a from by omega]
  rfl

lemma windowCycles_post (p a o : Nat) :
    windowCycles ⟨"Post-read", (p : Int) + (a : Int) + 1,
      (p : Int) + (a : Int) + (o : Int)⟩ =
      rangeFrom ((p : Int) + (a : Int) + 1) o := by
  unfold windowCycles windowLength
  rw [show (((p : Int) + (a : Int) + (o : Int) - ((p : Int) + (a : Int) + 1) + 1)).toNat
    = o from by omega]
  rfl

lemma edsWindows_total (p a o : Nat) :
    ((edsWindows p a o).map windowLength).sum = (p : Int) + (a : Int) + (o : Int) := by
  unfold edsWindows
  by_cases hp : 0 < p <;> by_cases ha : 0 < a <;> by_cases ho : 0 < o <;>
    simp [hp, ha, ho, windowLength] <;> omega

lemma edsWindows_partition (p a o : Nat) :
    (edsWindows p a o).flatMap windowCycles = oneToN (p + a + o) := by
  unfold edsWindows
  rw [List.flatMap_append, List.flatMap_append]
  have hpre : (if 0 < p then
      [({ name := "Pre-read", start_cycle := 1, end_cycle := (p : Int) } : DataWindow)]
      else []).flatMap windowCycles = rangeFrom 1 p := by
    by_cases hp : 0 < p
    · rw [if_pos hp, List.flatMap_singleton, windowCycles_pre]
    · rw [if_neg hp, show p = 0 from by omega]
      rfl
  have hamp : (if 0 < a then
      [({ name := "Amplification", start_cycle := (p : Int) + 1,
          end_cycle := (p : Int) + (a : Int) } : DataWindow)]
      else []).flatMap windowCycles = rangeFrom ((p : Int) + 1) a := by
    by_cases ha : 0 < a
    · rw [if_pos ha, List.flatMap_singleton, windowCycles_amp]
    · rw [if_neg ha, show a = 0 from by omega]
      rfl
  have hpost : (if 0 < o then
      [({ name := "Post-read", start_cycle := (p : Int) + (a : Int) + 1,
          end_cycle := (p : Int) + (a : Int) + (o : Int) } : DataWindow)]
      else []).flatMap windowCycles = rangeFrom ((p : Int) + (a : Int) + 1) o := by
    by_cases ho : 0 < o
    · rw [if_pos ho, List.flatMap_singleton, windowCycles_post]
    · rw [if_neg ho, show o = 0 from by omega]
      rfl
  rw [hpre, hamp, hpost, oneToN_eq_rangeFrom,
    show p + a + o = p + (a + o) from by omega, rangeFrom_append, rangeFrom_append,
    List.append_assoc, show (1 : Int) + (p : Int) = (p : Int) + 1 from by ring,
    show ((p : Int) + 1) + (a : Int) = (p : Int) + (a : Int) + 1 from by ring]

lemma mem_enum_fst_lt {α : Type} {l : List α} {p : Nat × α} (h : p ∈ l.enum) :
    p.1 < l.length := by
  have h' : p ∈ List.enumFrom 0 l := h
  simpa using (mem_enumFrom_bounds h').2.1

lemma foldl_phaseStep_lt {cycling pre post : List Int} {B : Nat} :
    ∀ (l : List (Nat × Int)) (acc : List Nat × List Nat × List Nat),
      (∀ p ∈ l, p.1 < B) →
      (∀ i ∈ acc.1 ++ acc.2.1 ++ acc.2.2, i < B) →
      ∀ i ∈ (l.foldl (phaseStep cycling pre post) acc).1 ++
        (l.foldl (phaseStep cycling pre post) acc).2.1 ++
        (l.foldl (phaseStep cycling pre post) acc).2.2, i < B := by
  intro l
  induction l with
  | nil =>
    intro acc _ hacc
    exact hacc
  | cons p t iht =>
    intro acc hl hacc
    rw [List.foldl_cons]
    refine iht _ (fun q hq => hl q (List.mem_cons_of_mem _ hq)) ?_
    have hp := hl p (List.mem_cons_self _ _)
    unfold phaseStep
    split
    · intro i hi
      simp only [List.mem_append, List.mem_singleton, or_assoc] at hi
      rcases hi with hi | hi | hi | hi <;>
        first
          | (subst hi; exact hp)
          | (exact hacc i (by simp [hi]))
    · split
      · intro i hi
        simp only [List.mem_append, List.mem_singleton, or_assoc] at hi
        rcases hi with hi | hi | hi | hi <;>
          first
            | (subst hi; exact hp)
            | (exact hacc i (by simp [hi]))
      · split
        · intro i hi
          simp only [List.mem_append, List.mem_singleton, or_assoc] at hi
          rcases hi with hi | hi | hi | hi <;>
            first
              | (subst hi; exact hp)
              | (exact hacc i (by simp [hi]))
        · exact hacc

lemma resolvePhaseIndices_lt (fl : List Int) (stm : List (Int × String)) :
    ∀ i ∈ (resolvePhaseIndices fl stm).1 ++ (resolvePhaseIndices fl stm).2.1 ++
      (resolvePhaseIndices fl stm).2.2, i < fl.length := by
  unfold resolvePhaseIndices
  by_cases hstm : stm ≠ []
  · rw [if_pos hstm]
    exact foldl_phaseStep_lt fl.enum ([], [], [])
      (fun p hp => mem_enum_fst_lt hp) (by intro i hi; simp at hi)
  · rw [if_neg hstm]
    intro i hi
    simp only [List.mem_append, List.mem_map] at hi
    rcases hi with (⟨p, hp, rfl⟩ | ⟨p, hp, rfl⟩) | ⟨p, hp, rfl⟩ <;>
      exact mem_enum_fst_lt (List.mem_filter.1 hp).1

lemma parse_eds_core_ok {dm : List (Int × List String)}
    {sm : List (Int × List (List ℚ))} {fl : List Int}
    {stm : List (Int × String)} {sn : List (Int × String)}
    {mg : Option (List (String × List Int))} {ps : List ProtocolStep}
    {u : UnifiedData}
    (h : parse_eds_core dm sm fl stm sn mg ps = .ok u) :
    ∃ fd famIdx a2Idx data,
      firstNonemptyDyes dm = some fd ∧
      (dyeRoleIndices fd).1 = some famIdx ∧
      (dyeRoleIndices fd).2.1 = some a2Idx ∧
      emitAll dm sm famIdx a2Idx (dyeRoleIndices fd).2.2
        ((resolvePhaseIndices fl stm).1 ++ (resolvePhaseIndices fl stm).2.1 ++
          (resolvePhaseIndices fl stm).2.2) = .ok data ∧
      u.data = data ∧
      u.wells = sortWells (data.foldl (fun s d => setAdd s d.well) []) ∧
      u.data_windows =
        (if edsWindows (resolvePhaseIndices fl stm).1.length
            (resolvePhaseIndices fl stm).2.1.length
            (resolvePhaseIndices fl stm).2.2.length = [] then none
          else some (edsWindows (resolvePhaseIndices fl stm).1.length
            (resolvePhaseIndices fl stm).2.1.length
            (resolvePhaseIndices fl stm).2.2.length)) := by
  simp only [parse_eds_core] at h
  split at h
  · exact absurd h (by simp)
  · rename_i fd hfd
    split at h
    · rename_i famIdx a2Idx hfam ha2
      rcases except_bind_ok h with ⟨data, hemit, hpure⟩
      injection hpure with hu
      refine ⟨fd, famIdx, a2Idx, data, hfd, hfam, ha2, hemit, ?_, ?_, ?_⟩ <;>
        rw [← hu]
    · exact absurd h (by simp)

lemma lookup_mem {K V : Type} [DecidableEq K] :
    ∀ {l : List (K × V)} {k : K} {v : V}, l.lookup k = some v → (k, v) ∈ l := by
  intro l
  induction l with
  | nil => intro k v h; cases h
  | cons p t ih =>
    intro k v h
    obtain ⟨a, b⟩ := p
    by_cases hk : k = a
    · subst hk
      simp only [List.lookup, beq_self_eq_true] at h
      injection h with h'
      subst h'
      exact List.mem_cons_self _ _
    · simp only [List.lookup, beq_eq_false_iff_ne.2 hk] at h
      exact List.mem_cons_of_mem _ (ih h)

/-- Success inversion for `parse_quantstudio`: the header row and header
list were found, the WELL/CYCLE/FAM columns and a VIC-or-HEX column are all
present, and the output's data and reference flag come from the row fold. -/
lemma parse_quantstudio_ok {sheet : Sheet} {u : UnifiedData}
    (h : parse_quantstudio sheet = .ok u) :
    ∃ hr headers wc cc fc res,
      find_header_row sheet = .ok hr ∧
      qsHeaders sheet hr = .ok headers ∧
      (headerColMap headers).lookup "WELL" = some wc ∧
      (headerColMap headers).lookup "CYCLE" = some cc ∧
      (headerColMap headers).lookup "FAM" = some fc ∧
      (((headerColMap headers).lookup "VIC").isSome ∨
        ((headerColMap headers).lookup "HEX").isSome) ∧
      ∃ a2c,
        (List.range' (hr + 1) (sheetNRows sheet - (hr + 1))).foldlM
          (qsRowStep sheet wc cc fc a2c ((headerColMap headers).lookup "ROX"))
          (([], [], []) : List WellCycleData × List String × List Int) = .ok res ∧
        u.data = res.1 ∧
        u.has_rox = ((headerColMap headers).lookup "ROX").isSome := by
  simp only [parse_quantstudio] at h
  rcases except_bind_ok h with ⟨hr, hhr, h2⟩
  rcases except_bind_ok h2 with ⟨headers, hhd, h3⟩
  split at h3
  · rename_i wc cc fc hwc hcc hfc
    split at h3
    · exact absurd h3 (by simp)
    · rename_i dye a2c heq
      rcases except_bind_ok h3 with ⟨res, hres, hpure⟩
      injection hpure with hu
      refine ⟨hr, headers, wc, cc, fc, res, hhr, hhd, hwc, hcc, hfc, ?_,
        a2c, hres, ?_, ?_⟩
      · cases hvic : (headerColMap headers).lookup "VIC" with
        | some i => exact Or.inl (by simp [hvic])
        | none =>
          simp only [hvic] at heq
          cases hhex : (headerColMap headers).lookup "HEX" with
          | some i => exact Or.inr (by simp [hhex])
          | none =>
            rw [hhex] at heq
            exact absurd heq (by simp)
      · rw [← hu]
      · rw [← hu]
  · exact absurd h3 (by simp)

/-- With no reference column, a row-fold step never emits a reading with a
reference value. -/
lemma qsRowStep_rox_none {sheet : Sheet} {wc cc fc a2c : Nat}
    {acc res : List WellCycleData × List String × List Int} {r : Nat}
    (h : qsRowStep sheet wc cc fc a2c none acc r = .ok res)
    (hacc : ∀ d ∈ acc.1, d.rox = none) :
    ∀ d ∈ res.1, d.rox = none := by
  unfold qsRowStep at h
  split at h
  · injection h with h'
    rw [← h']
    exact hacc
  · rcases except_bind_ok h with ⟨wid, _, h2⟩
    split at h2
    · injection h2 with h'
      rw [← h']
      exact hacc
    · injection h2 with h'
      rw [← h']
      intro d hd
      simp only [List.mem_append, List.mem_singleton] at hd
      rcases hd with hd | hd
      · exact hacc d hd
      · rw [hd]

/-- With no reference column, the whole row fold never emits a reading with
a reference value. -/
lemma qsRows_fold_rox_none {sheet : Sheet} {wc cc fc a2c : Nat} :
    ∀ (rows : List Nat) (acc res : List WellCycleData × List String × List Int),
      rows.foldlM (qsRowStep sheet wc cc fc a2c none) acc = .ok res →
      (∀ d ∈ acc.1, d.rox = none) → ∀ d ∈ res.1, d.rox = none := by
  intro rows
  induction rows with
  | nil =>
    intro acc res h hacc
    injection h with h'
    rw [← h']
    exact hacc
  | cons r rest ih =>
    intro acc res h hacc
    rw [List.foldlM_cons] at h
    rcases except_bind_ok h with ⟨acc1, hstep, hrest⟩
    exact ih acc1 res hrest (qsRowStep_rox_none hstep hacc)

/-- Success inversion for `parse_workbook`: the FAM sheet and the allele-2
sheet are present in the workbook, and the output's data and reference flag
come from the key-union merge fold. -/
lemma parse_workbook_ok {wb : Workbook} {u : UnifiedData}
    (h : parse_workbook wb = .ok u) :
    ∃ fam_data allele2_data rox_data,
      (wb.lookup "FAM").isSome ∧
      (wb.lookup (if "HEX" ∈ wb.map (·.1) then "HEX" else "VIC")).isSome ∧
      u.data = ((sortedKeyUnion (fam_data.map (·.1)) (allele2_data.map (·.1))).foldl
        (cfxMergeStep fam_data allele2_data rox_data
          (decide ("ROX" ∈ wb.map (·.1))))
        (([], [], []) : List WellCycleData × List String × List Int)).1 ∧
      u.has_rox = decide ("ROX" ∈ wb.map (·.1)) := by
  simp only [parse_workbook] at h
  cases hf : wb.lookup "FAM" with
  | none =>
    rw [hf] at h
    simp [Bind.bind, Except.bind] at h
  | some famWs =>
    rw [hf] at h
    rcases except_bind_ok h with ⟨famWs2, hpf, h2⟩
    cases ha : wb.lookup (if "HEX" ∈ wb.map (·.1) then "HEX" else "VIC") with
    | none =>
      rw [ha] at h2
      simp [Bind.bind, Except.bind] at h2
    | some a2Ws =>
      rw [ha] at h2
      rcases except_bind_ok h2 with ⟨a2Ws2, hpa, h3⟩
      rcases except_bind_ok h3 with ⟨fam_data, hfd, h4⟩
      rcases except_bind_ok h4 with ⟨allele2_data, had, h5⟩
      split at h5
      · split at h5
        · rcases except_bind_ok h5 with ⟨rox_data, hrd, hpure⟩
          injection hpure with hu
          refine ⟨fam_data, allele2_data, rox_data, by simp [hf], by simp [ha],
            ?_, ?_⟩
          · rw [← hu]
          · rw [← hu]
        · simp [Bind.bind, Except.bind] at h5
      · rcases except_bind_ok h5 with ⟨rox_data, hrd, hpure⟩
        injection hpure with hu
        refine ⟨fam_data, allele2_data, rox_data, by simp [hf], by simp [ha],
          ?_, ?_⟩
        · rw [← hu]
        · rw [← hu]

/-- With the reference flag off, the merge fold never emits a reading with
a reference value. -/
lemma cfxMerge_fold_rox_none
    {fam_data allele2_data rox_data : List ((String × Int) × ℚ)} :
    ∀ (keys : List (String × Int))
      (acc : List WellCycleData × List String × List Int),
      (∀ d ∈ acc.1, d.rox = none) →
      ∀ d ∈ (keys.foldl (cfxMergeStep fam_data allele2_data rox_data false) acc).1,
        d.rox = none := by
  intro keys
  induction keys with
  | nil => intro acc hacc; exact hacc
  | cons k rest ih =>
    intro acc hacc
    rw [List.foldl_cons]
    refine ih _ ?_
    intro d hd
    simp only [cfxMergeStep, List.mem_append, List.mem_singleton] at hd
    rcases hd with hd | hd
    · exact hacc d hd
    · rw [hd]
      simp

/-! ## Claim theorems -/

/-- C1 counterexample.  The claim says a `.pcrd` upload is routed to the
encrypted-raw parser and, with the passphrase configured, parsing proceeds;
in the code `detect_and_parse` raises unconditionally on the `.pcrd` branch
(detector.py lines 53-58): even with a passphrase configured the outcome is
the fixed rejection, which is not the missing-passphrase configuration
error. -/
theorem detector_rejects_pcrd_with_passphrase :
    pcrdUploadOutcome (some "secret-passphrase") = .reject pcrdDetectorMsg ∧
    pcrdDetectorMsg ≠ pcrdMissingKeyMsg := by
  exact ⟨rfl, by decide⟩

/-- C1 amended: the detector rejects every `.pcrd` upload with the fixed
advisory error regardless of the configured passphrase, and never invokes
`parse_pcrd`; inside the (unreachable from the detector) parser module, the
extraction gate fails with the configuration error exactly when the
passphrase environment value is unset or empty, and otherwise reads the
first archive entry. -/
theorem pcrd_detector_and_gate_behavior :
    (∀ pw, pcrdUploadOutcome pw = .reject pcrdDetectorMsg) ∧
    (∀ names, extract_xml_gate none names = .error pcrdMissingKeyMsg) ∧
    (∀ s, extract_xml_gate (some s) [] =
      .error "Empty .pcrd archive - no files inside.") ∧
    (∀ s n rest, extract_xml_gate (some s) (n :: rest) = .ok n) ∧
    pcrdPassword none = none ∧
    pcrdPassword (some "") = none ∧
    (∀ s, pcrdPassword (some s) = if s = "" then none else some s) := by
  refine ⟨fun _ => rfl, fun _ => rfl, fun _ => rfl, fun _ _ _ => rfl, rfl, by decide, fun _ => rfl⟩

/-- C3 counterexample.  `parse_quantstudio` keeps the sheet's native cycle
numbers: on a sheet whose cycles are 2 and 3 the parse succeeds, well A1's
emitted cycle sequence is `[2, 3]`, and the summed DataWindow length is 2,
so the sequence is not `1..N`. -/
theorem quantstudio_native_cycles_counterexample :
    (parse_quantstudio exQsSheet).toOption.map
      (fun u => (cyclesOfWell u "A1", totalWindowLength u, u.data_windows)) =
      some ([2, 3], 2, some [⟨"Amplification", 2, 3⟩]) ∧
    ([2, 3] : List Int) ≠ oneToN 2 := by
  constructor
  · decide
  · decide

/-- C3 amended.  For the eds raw parser: whenever parsing succeeds, the
signal map's keys are distinct well indices in `0..95` (a Python dict over
valid `WellIndex` values), and every well's dye arrays are at least as long
as the stage-flag list, then the `(well, cycle)` pairs of the emitted
readings are unique, every well's emitted cycle sequence is exactly `1..N`
where `N` is the summed DataWindow length, and the DataWindows partition
`1..N`.  (The spreadsheet parser `parse_quantstudio` does not renumber
cycles, so the unconditional claim fails there - see the counterexample.) -/
theorem eds_cycle_invariant
    (dm : List (Int × List String)) (sm : List (Int × List (List ℚ)))
    (fl : List Int) (stm : List (Int × String)) (sn : List (Int × String))
    (mg : Option (List (String × List Int))) (ps : List ProtocolStep)
    (u : UnifiedData)
    (hok : parse_eds_core dm sm fl stm sn mg ps = .ok u)
    (hnodup : (sm.map (fun p => p.1)).Nodup)
    (hrange : ∀ k ∈ sm.map (fun p => p.1), 0 ≤ k ∧ k < 96)
    (hcov : ∀ p ∈ sm, ∀ arr ∈ p.2, fl.length ≤ arr.length) :
    pairsUnique u ∧
    (∀ w ∈ u.wells, cyclesOfWell u w = oneToN (totalWindowLength u).toNat) ∧
    windowsPartition u := by
  rcases parse_eds_core_ok hok with
    ⟨fd, famIdx, a2Idx, data, hfd, hfam, ha2, hemit, hudata, huwells, huwin⟩
  unfold emitAll at hemit
  have hperm : (sortInts (sm.map (fun p => p.1))).Perm (sm.map (fun p => p.1)) :=
    List.perm_insertionSort _ _
  have hknodup : (sortInts (sm.map (fun p => p.1))).Nodup :=
    hperm.nodup_iff.2 hnodup
  have hkrange : ∀ k ∈ sortInts (sm.map (fun p => p.1)), 0 ≤ k ∧ k < 96 :=
    fun k hk => hrange k (hperm.mem_iff.1 hk)
  have hkcov : ∀ k ∈ sortInts (sm.map (fun p => p.1)),
      ∀ arr ∈ (sm.lookup k).getD [],
      ∀ i ∈ (resolvePhaseIndices fl stm).1 ++ (resolvePhaseIndices fl stm).2.1 ++
        (resolvePhaseIndices fl stm).2.2, i < arr.length := by
    intro k _ arr harr i hi
    cases hlk : sm.lookup k with
    | none =>
      rw [hlk] at harr
      simp at harr
    | some arrays =>
      rw [hlk] at harr
      have hlen := hcov (k, arrays) (lookup_mem hlk) arr (by simpa using harr)
      have hidx := resolvePhaseIndices_lt fl stm i hi
      omega
  rcases emitAllGo_invariant _ data hemit hknodup hkrange hkcov with ⟨e1, e2, e3⟩
  have hNlen : ((resolvePhaseIndices fl stm).1 ++ (resolvePhaseIndices fl stm).2.1 ++
      (resolvePhaseIndices fl stm).2.2).length =
      (resolvePhaseIndices fl stm).1.length + (resolvePhaseIndices fl stm).2.1.length +
      (resolvePhaseIndices fl stm).2.2.length := by
    simp only [List.length_append]
  have htotnat : (totalWindowLength u).toNat =
      ((resolvePhaseIndices fl stm).1 ++ (resolvePhaseIndices fl stm).2.1 ++
        (resolvePhaseIndices fl stm).2.2).length := by
    unfold totalWindowLength
    rw [huwin]
    by_cases hwnil : edsWindows (resolvePhaseIndices fl stm).1.length
        (resolvePhaseIndices fl stm).2.1.length
        (resolvePhaseIndices fl stm).2.2.length = []
    · rw [if_pos hwnil]
      have h0 := edsWindows_total (resolvePhaseIndices fl stm).1.length
        (resolvePhaseIndices fl stm).2.1.length
        (resolvePhaseIndices fl stm).2.2.length
      rw [hwnil] at h0
      simp only [List.map_nil, List.sum_nil] at h0
      rw [hNlen]
      simp
      omega
    · rw [if_neg hwnil]
      simp only [Option.getD_some]
      rw [edsWindows_total, hNlen]
      omega
  refine ⟨?_, ?_, ?_⟩
  · unfold pairsUnique
    rw [hudata]
    exact e3
  · intro w hw
    rw [huwells] at hw
    unfold sortWells at hw
    have hw2 : w ∈ data.foldl (fun s d => setAdd s d.well) [] :=
      (List.perm_insertionSort _ _).mem_iff.1 hw
    rw [mem_foldl_setAdd] at hw2
    rcases hw2 with hw2 | ⟨d, hd, hdw⟩
    · cases hw2
    · unfold cyclesOfWell
      rw [hudata, htotnat]
      rcases e2 w with hnil | hcyc
      · exfalso
        have hmem : d ∈ data.filter (fun d => d.well = w) :=
          List.mem_filter.2 ⟨hd, by simp [hdw]⟩
        rw [hnil] at hmem
        cases hmem
      · exact hcyc
  · unfold windowsPartition
    rw [huwin, htotnat]
    by_cases hwnil : edsWindows (resolvePhaseIndices fl stm).1.length
        (resolvePhaseIndices fl stm).2.1.length
        (resolvePhaseIndices fl stm).2.2.length = []
    · rw [if_pos hwnil]
      have h0 := edsWindows_total (resolvePhaseIndices fl stm).1.length
        (resolvePhaseIndices fl stm).2.1.length
        (resolvePhaseIndices fl stm).2.2.length
      rw [hwnil] at h0
      simp only [List.map_nil, List.sum_nil] at h0
      have hz : ((resolvePhaseIndices fl stm).1 ++ (resolvePhaseIndices fl stm).2.1 ++
          (resolvePhaseIndices fl stm).2.2).length = 0 := by
        rw [hNlen]
        omega
      rw [hz]
      rfl
    · rw [if_neg hwnil]
      simp only [Option.getD_some]
      rw [edsWindows_partition, hNlen]

/-- C3 witness: the legacy-flag scenario archive (2 wells, 3 dyes, flags
`[1,5,5,5,6]`, no protocol) satisfies the hypotheses, so its output obeys
the invariant. -/
theorem eds_cycle_invariant_witness :
    ∃ u, parse_eds_core exDyeMap3 exSignalMap3 [1, 5, 5, 5, 6] [] [] none [] = .ok u ∧
      (pairsUnique u ∧
       (∀ w ∈ u.wells, cyclesOfWell u w = oneToN (totalWindowLength u).toNat) ∧
       windowsPartition u) :=
  ⟨_, rfl, eds_cycle_invariant exDyeMap3 exSignalMap3 [1, 5, 5, 5, 6] [] [] none [] _
    rfl (by decide) (by decide) (by decide)⟩

/-- C5 counterexample.  Spec section 8 expects the archive with stage flags
`[1,5,5,5,6]` and a protocol declaring stage 1 PRE_READ, stages 2-4 CYCLING
with collection, stage 5 POST_READ to yield Pre-read(1), Amplification(2-4),
Post-read(5) and 5 readings for A1.  With the protocol present the parser
reads the flags as 1-based stage indices: flag 5 is the POST_READ stage, so
the three middle reads become Post-read, the flag-6 read matches no stage
and is dropped, and A1 emits 4 readings with no Amplification window. -/
theorem eds_protocol_stage_flags_counterexample :
    (parse_eds_core exDyeMap3 exSignalMap3 [1, 5, 5, 5, 6]
        (parse_stage_type_map exStages5) [] none []).toOption.map
      (fun u => (u.data_windows, cyclesOfWell u "A1")) =
    some (some [⟨"Pre-read", 1, 1⟩, ⟨"Post-read", 2, 4⟩], [1, 2, 3, 4]) := by
  decide

/-- C5 amended: with the declared protocol the parser yields windows
Pre-read(cycle 1) and Post-read(cycles 2-4), well A1 producing 4 ordered
readings (the flag-6 read is dropped); the claimed windows Pre-read(1),
Amplification(2-4), Post-read(5) with 5 ordered A1 readings arise when no
protocol is present, via the legacy fixed flags 1/5/6. -/
theorem eds_stage_flag_windows_amended :
    (parse_eds_core exDyeMap3 exSignalMap3 [1, 5, 5, 5, 6]
        (parse_stage_type_map exStages5) [] none []).toOption.map
      (fun u => (u.data_windows, cyclesOfWell u "A1")) =
      some (some [⟨"Pre-read", 1, 1⟩, ⟨"Post-read", 2, 4⟩], [1, 2, 3, 4]) ∧
    (parse_eds_core exDyeMap3 exSignalMap3 [1, 5, 5, 5, 6] [] [] none []).toOption.map
      (fun u => (u.data_windows, cyclesOfWell u "A1")) =
      some (some [⟨"Pre-read", 1, 1⟩, ⟨"Amplification", 2, 4⟩, ⟨"Post-read", 5, 5⟩],
        [1, 2, 3, 4, 5]) := by
  constructor
  · decide
  · decide

/-- C6 counterexample.  Well index 1's own dye list is `[VIC, FAM]`: its FAM
dye sits at position 1, where its cycle array is `[20]`.  The parser resolves
dye positions once, from the first assigned well's list `[FAM, VIC]`, and
emits `fam = 10` for well A2 - the value of A2's VIC array - not 20. -/
theorem eds_dye_order_counterexample :
    (parse_eds_core exDyeMapMixed exSignalMapMixed [5] [] [] none []).toOption.map
      (fun u => u.data) =
      some [⟨"A1", 1, 1, 2, none⟩, ⟨"A2", 1, 10, 20, none⟩] ∧
    (dyeRoleIndices ["VIC", "FAM"]).1 = some 1 ∧
    pyIndex [[(10 : ℚ)], [20]] (1 : Int) = .ok [20] ∧
    (10 : ℚ) ≠ 20 := by
  refine ⟨by decide, by decide, by decide, by decide⟩

/-- C6 amended.  Whenever the eds parse succeeds, the FAM and allele-2
positions are resolved once, from the FIRST assigned well's dye list
(eds_raw.py lines 128-157), and every emitted reading's FAM and allele-2
values are drawn from its own well's cycle arrays at those first-well
positional indices - not at the position of the dye in that well's own dye
list. -/
theorem eds_first_well_dye_binding (dm : List (Int × List String))
    (sm : List (Int × List (List ℚ))) (fl : List Int)
    (stm : List (Int × String)) (sn : List (Int × String))
    (mg : Option (List (String × List Int))) (ps : List ProtocolStep)
    (u : UnifiedData)
    (hok : parse_eds_core dm sm fl stm sn mg ps = .ok u) :
    ∃ fd famIdx a2Idx,
      firstNonemptyDyes dm = some fd ∧
      (dyeRoleIndices fd).1 = some famIdx ∧
      (dyeRoleIndices fd).2.1 = some a2Idx ∧
      ∀ d ∈ u.data, ∃ k famArr a2Arr rawIdx,
        well_index_to_id k = .ok d.well ∧
        ((sm.lookup k).getD []).get? famIdx = some famArr ∧
        ((sm.lookup k).getD []).get? a2Idx = some a2Arr ∧
        pyIndex famArr (rawIdx : Int) = .ok d.fam ∧
        pyIndex a2Arr (rawIdx : Int) = .ok d.allele2 := by
  rcases parse_eds_core_ok hok with
    ⟨fd, famIdx, a2Idx, data, hfd, hfam, ha2, hemit, hudata, _, _⟩
  refine ⟨fd, famIdx, a2Idx, hfd, hfam, ha2, ?_⟩
  intro d hd
  rw [hudata] at hd
  unfold emitAll at hemit
  rcases emitAllGo_mem_values _ _ hemit d hd with
    ⟨k, _, famArr, a2Arr, rawIdx, hwid, hfg, hag, _, hfv, hav⟩
  exact ⟨k, famArr, a2Arr, rawIdx, hwid, hfg, hag, hfv, hav⟩

/-- C6 witness: the mixed-order archive (well 0's dye list `[FAM, VIC]`,
well 1's `[VIC, FAM]`) parses successfully, and the theorem's binding holds
for its output with the indices resolved from well 0's list. -/
theorem eds_first_well_dye_binding_witness :
    ∃ u, parse_eds_core exDyeMapMixed exSignalMapMixed [5] [] [] none [] = .ok u ∧
      ∃ fd famIdx a2Idx,
        firstNonemptyDyes exDyeMapMixed = some fd ∧
        (dyeRoleIndices fd).1 = some famIdx ∧
        (dyeRoleIndices fd).2.1 = some a2Idx ∧
        ∀ d ∈ u.data, ∃ k famArr a2Arr rawIdx,
          well_index_to_id k = .ok d.well ∧
          ((exSignalMapMixed.lookup k).getD []).get? famIdx = some famArr ∧
          ((exSignalMapMixed.lookup k).getD []).get? a2Idx = some a2Arr ∧
          pyIndex famArr (rawIdx : Int) = .ok d.fam ∧
          pyIndex a2Arr (rawIdx : Int) = .ok d.allele2 :=
  ⟨_, rfl, eds_first_well_dye_binding exDyeMapMixed exSignalMapMixed [5] [] []
    none [] _ rfl⟩

/-- C8.  `parse_eds` computes the multi-assay group map (eds_raw.py lines
220-229) and passes it as `well_groups=` at line 241, but
`models.UnifiedData` (models.py lines 30-39) has no such field and pydantic
silently ignores unknown keyword arguments: the returned value never exposes
any group map.  First conjunct: the output is entirely independent of the
marker groups.  Second conjunct: on the failing input (two marker groups
over assigned wells A1, A2) the dropped computation was the expected
two-group map. -/
theorem eds_marker_groups_never_exposed :
    (∀ dm sm fl stm sn mg mg' ps,
      parse_eds_core dm sm fl stm sn mg ps = parse_eds_core dm sm fl stm sn mg' ps) ∧
    edsComputedWellGroups (some exMarkerGroups) ["A1", "A2"] =
      some [("M1", ["A1"]), ("M2", ["A2"])] := by
  exact ⟨fun _ _ _ _ _ _ _ _ => rfl, by decide⟩

/-- C9 counterexample.  Neither normalization uppercases: `"a1"` is returned
unchanged by both `_normalize_well` and the endpoint-sheet inline
normalization, and `"a1" ≠ "A1"`. -/
theorem normalize_well_lowercase_counterexample :
    normalize_well "a1" = some "a1" ∧ endpoint_normalize_well "a1" = "a1" ∧
    ("a1" : String) ≠ "A1" := by
  refine ⟨by decide, by decide, by decide⟩

/-- C9 amended: zero-padded ids normalize to the unpadded form ("A01" to
"A1", in both normalizers), but lowercase ids are not uppercased ("a1" stays
"a1"). -/
theorem normalize_well_zero_padding :
    normalize_well "A01" = some "A1" ∧ endpoint_normalize_well "A01" = "A1" ∧
    normalize_well "a1" = some "a1" ∧ endpoint_normalize_well "a1" = "a1" ∧
    normalize_well "H12" = some "H12" := by
  refine ⟨by decide, by decide, by decide, by decide, by decide⟩

/-- C10.  The xlsx repackaging repair is idempotent and complete with
respect to its own detector: the repaired archive's entry names contain no
backslash and no wrongly-cased `[Content_Types].xml`, so `needs_fixing` on
the repaired archive is false, and repairing an already repaired archive
reproduces the same entry names. -/
theorem xlsx_fix_idempotent_complete (names : List ZipEntryName) :
    needs_fixing_names (fix_cfx_xlsx_names names) = false ∧
    fix_cfx_xlsx_names (fix_cfx_xlsx_names names) = fix_cfx_xlsx_names names := by
  constructor
  · unfold needs_fixing_names
    rw [Bool.or_eq_false_iff]
    constructor
    · rw [List.any_eq_false]
      intro n hn
      rcases List.mem_map.1 hn with ⟨m, _, rfl⟩
      simp only [decide_eq_true_eq]
      intro hbs
      exact fixEntryName_no_bs hbs rfl
    · rw [List.any_eq_false]
      intro n hn
      rcases List.mem_map.1 hn with ⟨m, _, rfl⟩
      simp only [decide_eq_true_eq, not_and, not_not]
      exact fun hA => fixEntryName_ct hA
  · unfold fix_cfx_xlsx_names
    rw [List.map_map]
    exact List.map_congr_left (fun n _ => fixEntryName_idem n)

/-- C2.  For a plate read with the standard 12-column header, success of
`_parse_plate_reads` implies the summary array was at least
`channels x positions x 4` long (a shorter array raises a fatal error, the
only other outcome), and every emitted well entry carries the mean read at
the channel-major index `channel * (positions * 4) + position * 4 + 0` for
an assigned plate index within rows A-H (index < 96, so the 9th reference
row, positions 96-107, is never read). -/
theorem plate_read_channel_major_spec (famCh a2Ch roxCh chCount : Int)
    (assigned : List Int) (vals : List ℚ) (out : List (String × WellRFU))
    (hok : parse_plate_read famCh a2Ch roxCh assigned chCount 12 vals = .ok out) :
    chCount * statsPerCh ≤ (vals.length : Int) ∧
    ∀ p ∈ out, ChannelMajorAt famCh a2Ch roxCh vals assigned p := by
  unfold parse_plate_read at hok
  by_cases hlen : (vals.length : Int) < chCount * statsPerCh
  · rw [if_pos hlen] at hok
    exact absurd hok (by simp)
  · rw [if_neg hlen] at hok
    refine ⟨not_lt.1 hlen, ?_⟩
    intro p hp
    have hpairs : ∀ rc ∈ plateRowCols 12, rc.1 < 8 ∧ rc.2 < 12 := by
      intro rc hrc
      unfold plateRowCols at hrc
      rcases List.mem_flatMap.1 hrc with ⟨row, hrow, hcol⟩
      rcases List.mem_map.1 hcol with ⟨col, hcolmem, rfl⟩
      refine ⟨List.mem_range.1 hrow, ?_⟩
      have := List.mem_range.1 hcolmem
      simpa using this
    rcases plateReadLoop_ok_mem (plateRowCols 12) [] out hok hpairs p hp with h | h
    · cases h
    · exact h

set_option maxRecDepth 100000 in
/-- C2 witness: channels FAM=0, allele-2=1, no reference; 2 channels of 432
stats; well index 0 assigned.  The emitted A1 values are
`vals[0 * 432 + 0 * 4] = 0` and `vals[1 * 432 + 0 * 4] = 432`. -/
theorem plate_read_channel_major_spec_witness :
    parse_plate_read 0 1 (-1) [0] 2 12 exVals = .ok [("A1", ⟨0, 432, none⟩)] ∧
    ((2 : Int) * statsPerCh ≤ (exVals.length : Int) ∧
      ∀ p ∈ [("A1", (⟨0, 432, none⟩ : WellRFU))],
        ChannelMajorAt 0 1 (-1) exVals [0] p) :=
  ⟨by decide, plate_read_channel_major_spec 0 1 (-1) 2 [0] exVals _ (by decide)⟩

/-- C4.  After `_subtract_baseline`, with an Amplification window present
whose 1-based start indexes into the cycle data: every well's FAM and
allele-2 value in every cycle equals its raw value minus that well's value at
the first amplification cycle (wells with no baseline binding are unchanged),
the reference-dye value of every reading is unchanged, and at the first
amplification cycle itself every well's FAM and allele-2 values are exactly
0 with its reference value intact. -/
theorem subtract_baseline_spec (cycleData : List CycleEntry)
    (dws : List DataWindow) (w : DataWindow) (blEntry : CycleEntry)
    (hw : dws.find? (fun x => x.name = "Amplification") = some w)
    (h1 : 1 ≤ w.start_cycle)
    (hbl : cycleData.get? (w.start_cycle - 1).toNat = some blEntry) :
    ∃ out, subtract_baseline cycleData dws = .ok out ∧
      out.length = cycleData.length ∧
      (∀ bl r, subtractRFU bl r =
        ⟨r.fam - bl.fam, r.allele2 - bl.allele2, r.rox⟩) ∧
      (∀ i e0, cycleData.get? i = some e0 → ∃ e1, out.get? i = some e1 ∧
        e1.cycle = e0.cycle ∧
        ∀ wid, e1.wells.lookup wid = (e0.wells.lookup wid).map (fun r =>
          match blEntry.wells.lookup wid with
          | none => r
          | some bl => subtractRFU bl r)) ∧
      (∀ wid r, blEntry.wells.lookup wid = some r →
        ∃ e1, out.get? (w.start_cycle - 1).toNat = some e1 ∧
          e1.wells.lookup wid = some ⟨0, 0, r.rox⟩) := by
  have hfind : findAmpStartIdx dws = w.start_cycle - 1 := by
    unfold findAmpStartIdx
    rw [hw]
  have hlt : (w.start_cycle - 1).toNat < cycleData.length :=
    (List.get?_eq_some.1 hbl).1
  have h0 : (0 : Int) ≤ w.start_cycle - 1 := by omega
  have hpy : pyIndex cycleData (w.start_cycle - 1) = .ok blEntry := by
    have hcast : ((w.start_cycle - 1).toNat : Int) = w.start_cycle - 1 :=
      Int.toNat_of_nonneg h0
    rw [← hcast]
    exact pyIndex_natCast_of_get? hbl
  unfold subtract_baseline
  rw [hfind, if_neg (by omega : ¬ (cycleData.length : Int) ≤ w.start_cycle - 1), hpy]
  refine ⟨_, rfl, by simp, fun bl r => rfl, ?_, ?_⟩
  · intro i e0 h0i
    refine ⟨_, get?_map_some _ h0i, rfl, ?_⟩
    intro wid
    show (e0.wells.map _).lookup wid = _
    exact lookup_subtract_map blEntry.wells e0.wells wid
  · intro wid r hr
    refine ⟨_, get?_map_some _ hbl, ?_⟩
    show (blEntry.wells.map _).lookup wid = _
    rw [lookup_subtract_map, hr]
    simp [subtractRFU]

/-- C4 witness: the theorem instantiated at `exCycleData`/`exWindows`
(amplification starts at cycle 2, whose A1 values are FAM 6, allele-2 9,
reference 4). -/
theorem subtract_baseline_spec_witness :
    (exWindows.find? (fun x => x.name = "Amplification") =
      some ⟨"Amplification", 2, 3⟩) ∧
    (1 : Int) ≤ (2 : Int) ∧
    exCycleData.get? ((2 : Int) - 1).toNat =
      some ⟨2, [("A1", ⟨6, 9, some 4⟩)]⟩ ∧
    (∃ out, subtract_baseline exCycleData exWindows = .ok out ∧
      out.length = exCycleData.length ∧
      (∀ bl r, subtractRFU bl r =
        ⟨r.fam - bl.fam, r.allele2 - bl.allele2, r.rox⟩) ∧
      (∀ i e0, exCycleData.get? i = some e0 → ∃ e1, out.get? i = some e1 ∧
        e1.cycle = e0.cycle ∧
        ∀ wid, e1.wells.lookup wid =
          ((e0.wells.lookup wid).map (fun r =>
            match (⟨2, [("A1", ⟨6, 9, some 4⟩)]⟩ : CycleEntry).wells.lookup wid with
            | none => r
            | some bl => subtractRFU bl r))) ∧
      (∀ wid r,
        (⟨2, [("A1", ⟨6, 9, some 4⟩)]⟩ : CycleEntry).wells.lookup wid = some r →
        ∃ e1, out.get? ((2 : Int) - 1).toNat = some e1 ∧
          e1.wells.lookup wid = some ⟨0, 0, r.rox⟩)) :=
  ⟨by decide, by decide, by decide,
    subtract_baseline_spec exCycleData exWindows ⟨"Amplification", 2, 3⟩
      ⟨2, [("A1", ⟨6, 9, some 4⟩)]⟩ (by decide) (by decide) (by decide)⟩

/-- C7 counterexample.  The FAM sheet is present but holds no parseable
readings; the workbook parse succeeds anyway and emits `fam = 0.0` filler for
the reading found on the allele-2 sheet, instead of failing the parse. -/
theorem cfx_merge_filler_counterexample :
    (parse_workbook exWbEmptyFam).toOption.map (fun u => u.data) =
      some [⟨"A1", 1, 0, 5, none⟩] := by
  decide

/-- C7 amended.  Missing required channels do fail the whole parse at the
channel level: `parse_quantstudio` succeeds only when the WELL, CYCLE and
FAM columns and a VIC-or-HEX column are all present; `parse_eds` succeeds
only when a first assigned well exists whose dye list resolves both a FAM
and an allele-2 position; `_parse_workbook` succeeds only when the FAM and
allele-2 dye sheets are present.  And an absent reference dye is emitted as
null, never zero: when the output's reference flag is off, every emitted
reading of either parser carries no reference value.  (Per-reading filler
is a different matter: see the counterexample - a present but empty FAM
sheet still parses, with `0.0` filler.) -/
theorem required_channel_failures_amended :
    (∀ sheet u, parse_quantstudio sheet = .ok u →
      ∃ hr headers, find_header_row sheet = .ok hr ∧
        qsHeaders sheet hr = .ok headers ∧
        ((headerColMap headers).lookup "WELL").isSome ∧
        ((headerColMap headers).lookup "CYCLE").isSome ∧
        ((headerColMap headers).lookup "FAM").isSome ∧
        (((headerColMap headers).lookup "VIC").isSome ∨
          ((headerColMap headers).lookup "HEX").isSome)) ∧
    (∀ sheet u, parse_quantstudio sheet = .ok u → u.has_rox = false →
      ∀ d ∈ u.data, d.rox = none) ∧
    (∀ dm sm fl stm sn mg ps u, parse_eds_core dm sm fl stm sn mg ps = .ok u →
      ∃ fd, firstNonemptyDyes dm = some fd ∧
        (dyeRoleIndices fd).1.isSome ∧ (dyeRoleIndices fd).2.1.isSome) ∧
    (∀ wb u, parse_workbook wb = .ok u →
      (wb.lookup "FAM").isSome ∧
      (wb.lookup (if "HEX" ∈ wb.map (·.1) then "HEX" else "VIC")).isSome ∧
      (u.has_rox = false → ∀ d ∈ u.data, d.rox = none)) := by
  refine ⟨?_, ?_, ?_, ?_⟩
  · intro sheet u h
    rcases parse_quantstudio_ok h with
      ⟨hr, headers, wc, cc, fc, res, hhr, hhd, hwc, hcc, hfc, hvh, _⟩
    exact ⟨hr, headers, hhr, hhd, by simp [hwc], by simp [hcc], by simp [hfc], hvh⟩
  · intro sheet u h hfalse d hd
    rcases parse_quantstudio_ok h with
      ⟨hr, headers, wc, cc, fc, res, _, _, _, _, _, _, a2c, hres, hdata, hrox⟩
    rw [hrox] at hfalse
    have hnone : (headerColMap headers).lookup "ROX" = none := by
      cases hx : (headerColMap headers).lookup "ROX" with
      | none => rfl
      | some c => rw [hx] at hfalse; simp at hfalse
    rw [hnone] at hres
    rw [hdata] at hd
    refine qsRows_fold_rox_none _ _ _ hres ?_ d hd
    intro d' hd'
    cases hd'
  · intro dm sm fl stm sn mg ps u h
    rcases parse_eds_core_ok h with ⟨fd, famIdx, a2Idx, _, hfd, hfam, ha2, _⟩
    exact ⟨fd, hfd, by simp [hfam], by simp [ha2]⟩
  · intro wb u h
    rcases parse_workbook_ok h with
      ⟨fam_data, allele2_data, rox_data, hfam, ha2, hdata, hrox⟩
    refine ⟨hfam, ha2, ?_⟩
    intro hfalse d hd
    rw [hrox] at hfalse
    rw [hdata, hfalse] at hd
    refine cfxMerge_fold_rox_none _ _ ?_ d hd
    intro d' hd'
    cases hd'

/-- C7 witness: the counterexample workbook (FAM and HEX sheets, no ROX)
and the native-cycle sheet both parse; the theorem's column-presence and
null-reference conclusions hold on them. -/
theorem required_channel_failures_amended_witness :
    (∃ u, parse_quantstudio exQsSheet = .ok u ∧
      ∃ hr headers, find_header_row exQsSheet = .ok hr ∧
        qsHeaders exQsSheet hr = .ok headers ∧
        ((headerColMap headers).lookup "WELL").isSome ∧
        ((headerColMap headers).lookup "CYCLE").isSome ∧
        ((headerColMap headers).lookup "FAM").isSome ∧
        (((headerColMap headers).lookup "VIC").isSome ∨
          ((headerColMap headers).lookup "HEX").isSome)) ∧
    (∃ u, parse_workbook exWbEmptyFam = .ok u ∧ u.has_rox = false ∧
      ∀ d ∈ u.data, d.rox = none) :=
  ⟨⟨_, rfl, required_channel_failures_amended.1 exQsSheet _ rfl⟩,
   ⟨_, rfl, rfl,
    (required_channel_failures_amended.2.2.2 exWbEmptyFam _ rfl).2.2 rfl⟩⟩

end SnpAnalyzer
